import Mathlib

/-!
# FetcherBot — Challenge Lifecycle & Mining Coordination Engine: verification

A shallow embedding of the coordination core of the FetcherBot repository,
with theorems settling the specification claims.  Conventions used
throughout:

* ISO timestamp strings are modelled by their epoch-millisecond value as an
  `Int` (the code only ever compares timestamps through
  `new Date(s).getTime()`); JS `Math.floor` on a quotient of such values is
  `Int.fdiv`.
* JS `Map` objects (insertion ordered) are modelled as association lists
  `List (Key × Value)` whose update-or-append operations mirror
  `map.get`/`map.set`.
* `array.sort(cmp)` with a numeric comparator (stable in JS) is modelled by
  a stable insertion sort `sortByLe` over the boolean relation
  `le a b ↔ cmp a b ≤ 0`.
* Fallible operations (`throw new Error`) return `Except String _`.
* Reward rates (JS numbers) are modelled as rationals.
-/

namespace FetcherBot

/-! ## Stable sort (model of JS `Array.prototype.sort`) -/

/-- Insert `a` in front of the first element `b` with `le a b`.  This is the
insertion step of a stable insertion sort: among elements that compare equal,
earlier (already-placed) elements stay first. -/
def insertByLe {α : Type} (le : α → α → Bool) (a : α) : List α → List α
  | [] => [a]
  | b :: l => if le a b then a :: b :: l else b :: insertByLe le a l

/-- Stable insertion sort over a boolean "may stay before" relation, the model
of JS stable `sort` with a consistent comparator (`le a b ↔ cmp a b ≤ 0`). -/
def sortByLe {α : Type} (le : α → α → Bool) : List α → List α
  | [] => []
  | a :: l => insertByLe le a (sortByLe le l)

/-! ## Submission-log records

The receipts logger itself (`receipts-logger.ts`) is not among the provided
sources; per the spec (§6, Persisted artifacts) each log record carries
`{timestamp, address, addressIndex, challengeId, nonce, hash,
outcome-specific fields}`.  The field sets below are the ones the provided
routes read and write. -/

/-- One line of the append-only receipts log. -/
structure ReceiptEntry where
  ts : Int
  address : String
  addressIndex : Option Int
  challenge_id : String
  nonce : String
  hash : String
  crypto_receipt : Option String
  isDevFee : Bool
deriving DecidableEq, Repr

/-- One raw event line of the append-only failures log. -/
structure ErrorEntry where
  ts : Int
  address : String
  addressIndex : Option Int
  challenge_id : String
  nonce : String
  hash : String
  errMsg : String
deriving DecidableEq, Repr

/-- The dedup key `` `${r.address}:${r.challenge_id}:${r.nonce}` ``. -/
def receiptKey (r : ReceiptEntry) : String :=
  r.address ++ ":" ++ r.challenge_id ++ ":" ++ r.nonce

/-- The dedup key `` `${e.address}:${e.challenge_id}:${e.nonce}` ``. -/
def errorKey (e : ErrorEntry) : String :=
  e.address ++ ":" ++ e.challenge_id ++ ":" ++ e.nonce

/-! ## Nonce Space Partitioner — `src/lib/mining/nonce.ts` -/

namespace Nonce

/-- One hex digit as produced by JS `Number.prototype.toString(16)`
(lowercase). -/
def hexDigit (n : Nat) : Char :=
  if n < 10 then Char.ofNat (48 + n) else Char.ofNat (87 + n)

/-- The character list of `b.toString(16).padStart(2, '0')` for a byte value
`b < 256`: the bare hex rendering has one digit when `b < 16` (then a `'0'`
is padded in front) and two digits otherwise. -/
def byteToHexChars (b : Nat) : List Char :=
  if b < 16 then ['0', hexDigit b]
  else [hexDigit (b / 16), hexDigit (b % 16)]

/-- `b.toString(16).padStart(2, '0')` as a string. -/
def byteToHex (b : Nat) : String :=
  String.mk (byteToHexChars b)

/-- The 16-character string the source renders before its length guard:
`Array.from(bytes).map(b => b.toString(16).padStart(2, '0')).join('')` with
`bytes[0] = workerId & 0xFF` and the remaining 7 bytes random. -/
def nonceOf (workerId : Nat) (rand : List Nat) : String :=
  String.mk ((((workerId &&& 0xFF) :: rand).map byteToHexChars).flatten)

/-- `generateNonce(workerId)` from `src/lib/mining/nonce.ts`.  The seven
random bytes (`Math.floor(Math.random() * 256)` each) are passed explicitly
as `rand`; the guard throws when the rendered string is not exactly 16
characters. -/
def generateNonce (workerId : Nat) (rand : List Nat) : Except String String :=
  let nonce := nonceOf workerId rand
  if nonce.length ≠ 16 then
    Except.error "Generated nonce has invalid length"
  else
    Except.ok nonce

/-- A character of a lowercase hexadecimal rendering. -/
def isHexChar (c : Char) : Bool :=
  (48 ≤ c.toNat && c.toNat ≤ 57) || (97 ≤ c.toNat && c.toNat ≤ 102)

end Nonce

/-! ## Submission Ledger reconciliation — mining-history `GET` handler in
`src/app/api/init/route.ts` (second route of that file) -/

namespace Ledger

/-- `UniqueError`: one collapsed logical failure record. -/
structure UniqueError where
  ts : Int
  address : String
  addressIndex : Option Int
  challenge_id : String
  nonce : String
  hash : String
  errMsg : String
  retryCount : Nat
  lastAttempt : Int
deriving DecidableEq, Repr

/-- The key `` `${u.address}:${u.challenge_id}:${u.nonce}` `` of a collapsed
failure. -/
def uniqueKey (u : UniqueError) : String :=
  u.address ++ ":" ++ u.challenge_id ++ ":" ++ u.nonce

/-- One step of the `rawErrors.forEach` loop building `errorMap`: first
occurrence of a key inserts a fresh record with `retryCount = 1`; a repeat
occurrence bumps `retryCount`, keeps the most recent `errMsg`/`lastAttempt`
and the earliest `ts`. -/
def collapseStep (m : List UniqueError) (e : ErrorEntry) : List UniqueError :=
  if m.any (fun u => uniqueKey u == errorKey e) then
    m.map (fun u =>
      if uniqueKey u == errorKey e then
        let u1 := { u with retryCount := u.retryCount + 1 }
        let u2 := if u1.lastAttempt < e.ts then
            { u1 with lastAttempt := e.ts, errMsg := e.errMsg }
          else u1
        if e.ts < u2.ts then { u2 with ts := e.ts } else u2
      else u)
  else
    m ++ [{ ts := e.ts, address := e.address, addressIndex := e.addressIndex,
            challenge_id := e.challenge_id, nonce := e.nonce, hash := e.hash,
            errMsg := e.errMsg, retryCount := 1, lastAttempt := e.ts }]

/-- Reconciliation status of an `(addressIndex, challengeId)` group. -/
inductive HStatus
  | success
  | failed
  | pending
deriving DecidableEq, Repr

/-- One constituent failure pushed onto a group's `failures` list. -/
structure FailureItem where
  ts : Int
  nonce : String
  hash : String
  errMsg : String
deriving DecidableEq, Repr

/-- `AddressHistory`: one `(addressIndex, challengeId)` group. -/
structure AddressHistory where
  addressIndex : Int
  address : String
  challengeId : String
  successCount : Nat
  failureCount : Nat
  totalAttempts : Nat
  status : HStatus
  lastAttempt : Int
  failures : List FailureItem
  successTimestamp : Option Int
deriving DecidableEq, Repr

/-- The group key `` `${addressIndex ?? '?'}:${challenge_id}` ``. -/
def idxKey (idx : Option Int) (cid : String) : String :=
  (match idx with
    | some i => toString i
    | none => "?") ++ ":" ++ cid

/-- `addressHistoryMap.has(key)` on the association-list model. -/
def hasKey (m : List (String × AddressHistory)) (k : String) : Bool :=
  m.any (fun p => p.1 == k)

/-- Mutate the entry stored under `k` in place. -/
def updateAt (m : List (String × AddressHistory)) (k : String)
    (f : AddressHistory → AddressHistory) : List (String × AddressHistory) :=
  m.map (fun p => if p.1 == k then (p.1, f p.2) else p)

/-- The fresh group created when a collapsed failure hits a missing key
(`status: 'pending'`, zero counters). -/
def freshFromFailure (u : UniqueError) : AddressHistory :=
  { addressIndex := u.addressIndex.getD (-1), address := u.address,
    challengeId := u.challenge_id, successCount := 0, failureCount := 0,
    totalAttempts := 0, status := HStatus.pending,
    lastAttempt := u.lastAttempt, failures := [], successTimestamp := none }

/-- The per-failure group mutation: bump `failureCount` and `totalAttempts`,
push the failure, and advance `lastAttempt`. -/
def failUpdate (u : UniqueError) (h : AddressHistory) : AddressHistory :=
  let h1 := { h with
    failureCount := h.failureCount + 1,
    totalAttempts := h.totalAttempts + 1,
    failures := h.failures ++
      [{ ts := u.ts, nonce := u.nonce, hash := u.hash, errMsg := u.errMsg }] }
  if h1.lastAttempt < u.lastAttempt then { h1 with lastAttempt := u.lastAttempt }
  else h1

/-- One step of the `failedErrors.forEach` loop: create the group if absent,
then apply `failUpdate` at its key. -/
def procFailure (m : List (String × AddressHistory)) (u : UniqueError) :
    List (String × AddressHistory) :=
  let k := idxKey u.addressIndex u.challenge_id
  let m1 := if hasKey m k then m else m ++ [(k, freshFromFailure u)]
  updateAt m1 k (failUpdate u)

/-- The fresh group created when a receipt hits a missing key. -/
def freshFromReceipt (r : ReceiptEntry) : AddressHistory :=
  { addressIndex := r.addressIndex.getD (-1), address := r.address,
    challengeId := r.challenge_id, successCount := 0, failureCount := 0,
    totalAttempts := 0, status := HStatus.pending, lastAttempt := r.ts,
    failures := [], successTimestamp := none }

/-- The per-receipt group mutation: bump `successCount` and `totalAttempts`,
set `status: 'success'` and `successTimestamp`, advance `lastAttempt`. -/
def recUpdate (r : ReceiptEntry) (h : AddressHistory) : AddressHistory :=
  let h1 := { h with
    successCount := h.successCount + 1,
    totalAttempts := h.totalAttempts + 1,
    status := HStatus.success,
    successTimestamp := some r.ts }
  if h1.lastAttempt < r.ts then { h1 with lastAttempt := r.ts } else h1

/-- One step of the `receipts.forEach` loop: create the group if absent,
then apply `recUpdate` at its key. -/
def procReceipt (m : List (String × AddressHistory)) (r : ReceiptEntry) :
    List (String × AddressHistory) :=
  let k := idxKey r.addressIndex r.challenge_id
  let m1 := if hasKey m k then m else m ++ [(k, freshFromReceipt r)]
  updateAt m1 k (recUpdate r)

/-- The final `addressHistoryMap.forEach` pass: a group with only failures is
marked `'failed'`. -/
def finalizeStatus (h : AddressHistory) : AddressHistory :=
  if h.successCount == 0 && decide (0 < h.failureCount) then
    { h with status := HStatus.failed }
  else h

/-- `b.ts - a.ts ≤ 0`: comparator of the two timestamp-descending sorts. -/
def tsDescR (a b : ReceiptEntry) : Bool := b.ts ≤ a.ts

/-- `b.ts - a.ts ≤ 0` on raw error events. -/
def tsDescE (a b : ErrorEntry) : Bool := b.ts ≤ a.ts

/-- `b.lastAttempt - a.lastAttempt ≤ 0` on collapsed failures. -/
def lastAttemptDescU (a b : UniqueError) : Bool := b.lastAttempt ≤ a.lastAttempt

/-- `b.lastAttempt - a.lastAttempt ≤ 0` on groups. -/
def lastAttemptDescH (a b : AddressHistory) : Bool := b.lastAttempt ≤ a.lastAttempt

/-- The reconciliation response (the JSON payload fields the claims are
about; the percentage-string `successRate` is omitted). -/
structure ReconcileOut where
  receipts : List ReceiptEntry
  activeFailures : List UniqueError
  addressHistory : List AddressHistory
  totalSolutions : Nat
  totalErrors : Nat
  totalRetryAttempts : Nat
  recentFailureCount : Nat
deriving DecidableEq, Repr

/-- The whole read-side reconciliation of the mining-history `GET` handler:
sort both logs newest-first, collapse raw failures by key, drop collapsed
failures whose key has a receipt, group by `(addressIndex, challengeId)`,
and finalize statuses. -/
def reconcile (receiptsLog : List ReceiptEntry) (rawErrors : List ErrorEntry)
    (now : Int) : ReconcileOut :=
  let receipts := sortByLe tsDescR receiptsLog
  let rawSorted := sortByLe tsDescE rawErrors
  let uniqueErrors := rawSorted.foldl collapseStep []
  let successfulSolutions := receipts.map receiptKey
  let failedErrors0 := uniqueErrors.filter
    (fun u => ! successfulSolutions.contains (uniqueKey u))
  let failedErrors := sortByLe lastAttemptDescU failedErrors0
  let m1 := failedErrors.foldl procFailure []
  let m2 := receipts.foldl procReceipt m1
  let m3 := m2.map (fun p => (p.1, finalizeStatus p.2))
  let addressHistory := sortByLe lastAttemptDescH (m3.map Prod.snd)
  let twentyFourHoursAgo := now - 24 * 60 * 60 * 1000
  let recentFailures := failedErrors.filter
    (fun e => decide (twentyFourHoursAgo < e.lastAttempt))
  { receipts := receipts
    activeFailures := failedErrors
    addressHistory := addressHistory
    totalSolutions := receipts.length
    totalErrors := failedErrors.length
    totalRetryAttempts := rawErrors.length
    recentFailureCount := recentFailures.length }

end Ledger

/-! ## Challenge Ledger & Selector — `src/lib/storage/challenge-history.ts` -/

namespace Challenges

/-- The challenge-poll response fields `logChallenge` consumes. -/
structure ChallengeIn where
  challenge_id : String
  difficulty : String
  no_pre_mine : String
  latest_submission : Int
  no_pre_mine_hour : String
deriving DecidableEq, Repr

/-- One `difficultyChanges` element. -/
structure DifficultyChange where
  timestamp : Int
  oldDifficulty : String
  newDifficulty : String
deriving DecidableEq, Repr

/-- `ChallengeHistoryEntry` of `challenge-history.ts` (the optional
`difficultyChanges` array is modelled as a list, empty when absent). -/
structure ChallengeHistoryEntry where
  challenge_id : String
  difficulty : String
  no_pre_mine : String
  latest_submission : Int
  no_pre_mine_hour : String
  firstSeenAt : Int
  lastSeenAt : Int
  profileId : String
  validityHours : Nat
  expiresAt : Int
  difficultyChanges : List DifficultyChange
deriving DecidableEq, Repr

/-- The in-memory ledger `history: Map<string, ChallengeHistoryEntry>`; note
the map key is `challenge_id` alone. -/
abbrev History := List (String × ChallengeHistoryEntry)

/-- `logChallenge(challenge, profileId, validityHours)`.  An existing entry
(looked up by `challenge_id` alone) is updated in place: `lastSeenAt`,
`latest_submission` and `no_pre_mine_hour` are refreshed, and a difficulty
change is appended to `difficultyChanges`.  A new entry sets
`firstSeenAt = lastSeenAt = now` and `expiresAt = latest_submission`. -/
def logChallenge (history : History) (c : ChallengeIn) (profileId : String)
    (validityHours : Nat) (now : Int) : History :=
  match history.find? (fun p => p.1 == c.challenge_id) with
  | some p =>
      let e := p.2
      let e1 := { e with lastSeenAt := now,
                         latest_submission := c.latest_submission,
                         no_pre_mine_hour := c.no_pre_mine_hour }
      let e2 :=
        if c.difficulty ≠ e1.difficulty then
          { e1 with
            difficultyChanges := e1.difficultyChanges ++
              [{ timestamp := now, oldDifficulty := e1.difficulty,
                 newDifficulty := c.difficulty }],
            difficulty := c.difficulty }
        else e1
      history.map (fun q => if q.1 == c.challenge_id then (q.1, e2) else q)
  | none =>
      let entry : ChallengeHistoryEntry :=
        { challenge_id := c.challenge_id, difficulty := c.difficulty,
          no_pre_mine := c.no_pre_mine,
          latest_submission := c.latest_submission,
          no_pre_mine_hour := c.no_pre_mine_hour,
          firstSeenAt := now, lastSeenAt := now, profileId := profileId,
          validityHours := validityHours, expiresAt := c.latest_submission,
          difficultyChanges := [] }
      history ++ [(c.challenge_id, entry)]

/-- `b.firstSeenAt - a.firstSeenAt ≤ 0` (newest first). -/
def firstSeenDesc (a b : ChallengeHistoryEntry) : Bool :=
  b.firstSeenAt ≤ a.firstSeenAt

/-- `getValidChallenges(profileId)`: entries of the profile whose `expiresAt`
is still in the future, newest-seen first. -/
def getValidChallenges (history : History) (profileId : String) (now : Int) :
    List ChallengeHistoryEntry :=
  sortByLe firstSeenDesc
    ((history.map Prod.snd).filter
      (fun e => e.profileId == profileId && decide (now < e.expiresAt)))

/-- The numeric value of one hex digit, upper or lower case (as accepted by
JS `parseInt(s, 16)`). -/
def hexCharVal (c : Char) : Option Nat :=
  if 48 ≤ c.toNat ∧ c.toNat ≤ 57 then some (c.toNat - 48)
  else if 97 ≤ c.toNat ∧ c.toNat ≤ 102 then some (c.toNat - 87)
  else if 65 ≤ c.toNat ∧ c.toNat ≤ 70 then some (c.toNat - 55)
  else none

/-- Accumulate the value of the leading run of hex digits. -/
def hexRunVal (acc : Nat) : List Char → Nat
  | [] => acc
  | c :: cs =>
      match hexCharVal c with
      | some v => hexRunVal (16 * acc + v) cs
      | none => acc

/-- JS `parseInt(s, 16)`: an optional `0x`/`0X` is stripped, then the value
of the longest leading run of hex digits is returned; no leading hex digit
gives `NaN`, modelled as `none`.  (Leading whitespace and signs, which never
occur in difficulty strings, are not modelled.) -/
def jsParseIntHex (s : String) : Option Nat :=
  let cs := s.data
  let cs := if cs.take 2 = ['0', 'x'] ∨ cs.take 2 = ['0', 'X'] then cs.drop 2
    else cs
  match cs with
  | [] => none
  | c :: _ =>
      match hexCharVal c with
      | none => none
      | some _ => some (hexRunVal 0 cs)

/-- The selector's comparator as a "may stay before" relation: difficulty
(as a hex integer) descending, then `expiresAt` ascending.  When a
difficulty fails to parse the JS comparator returns `NaN` and the sort order
is unspecified; that case is modelled as keeping the original order. -/
def chLe (a b : ChallengeHistoryEntry) : Bool :=
  match jsParseIntHex a.difficulty, jsParseIntHex b.difficulty with
  | some da, some db =>
      if da ≠ db then decide (db ≤ da)
      else decide (a.expiresAt ≤ b.expiresAt)
  | _, _ => true

/-- `getEasiestValidChallenge(profileId, minTimeRemainingMinutes)`: filter
the profile's entries to those with more than `minTimeRemainingMinutes`
minutes left, sort easiest-first (higher hex difficulty) with
earliest-expiry tie-break, and return the head. -/
def getEasiestValidChallenge (history : History) (profileId : String)
    (minTimeRemainingMinutes : Int) (now : Int) :
    Option ChallengeHistoryEntry :=
  let minTimeMs := minTimeRemainingMinutes * 60 * 1000
  let validChallenges := (history.map Prod.snd).filter
    (fun e => e.profileId == profileId && decide (minTimeMs < e.expiresAt - now))
  if validChallenges.isEmpty then none
  else (sortByLe chLe validChallenges).head?

end Challenges

/-! ## Fee-Pool Rotator — `src/lib/devfee/manager.ts` -/

namespace DevFee

/-- One pre-fetched incentive address slot. -/
structure DevFeeAddress where
  address : String
  addressIndex : Int
  fetchedAt : Int
  usedCount : Nat
deriving DecidableEq, Repr

/-- The persisted `.devfee_cache.json` state (the `clientId` string is not
needed by any claim and is omitted). -/
structure DevFeeCache where
  currentAddress : Option DevFeeAddress
  totalDevFeeSolutions : Nat
  lastFetchError : Option String
  addressPool : List DevFeeAddress
  poolFetchedAt : Option Int
deriving DecidableEq, Repr

/-- The allocation authority's response body. -/
structure DevFeeApiResponse where
  devAddress : String
  devAddressIndex : Int
deriving DecidableEq, Repr

/-- The address-format validation: must start with `tnight1` or `addr1`
(JS `startsWith`, expressed on the character lists). -/
def validAddressFormat (s : String) : Bool :=
  List.isPrefixOf "tnight1".data s.data || List.isPrefixOf "addr1".data s.data

/-- The `addresses` array accumulated by the prefetch loop: the ten
sequential fetch attempts are passed as `fetches` (`none` = the request
threw and was caught and logged); an invalid-format response is skipped
(`continue`). -/
def fetchedAddresses (fetches : List (Option DevFeeApiResponse))
    (now : Int) : List DevFeeAddress :=
  fetches.foldl
    (fun acc r =>
      match r with
      | none => acc
      | some resp =>
          if validAddressFormat resp.devAddress then
            acc ++ [{ address := resp.devAddress,
                      addressIndex := resp.devAddressIndex,
                      fetchedAt := now, usedCount := 0 }]
          else acc)
    []

/-- `prefetchAddressPool()` on the enabled path: when fewer than 10
addresses accumulate the pool is cleared and fee routing disabled
(`false`); otherwise the pool is stored.  (The `isEnabled()` early return,
which performs no fetches at all, is outside this model.) -/
def prefetchAddressPool (cache : DevFeeCache)
    (fetches : List (Option DevFeeApiResponse)) (now : Int) :
    DevFeeCache × Bool :=
  let addresses := fetchedAddresses fetches now
  if addresses.length < 10 then
    ({ cache with addressPool := [], poolFetchedAt := none,
                  lastFetchError := some "Only fetched fewer than 10 addresses" },
     false)
  else
    ({ cache with addressPool := addresses, poolFetchedAt := some now,
                  lastFetchError := none },
     true)

/-- `hasValidAddressPool()`: exactly 10 stored addresses. -/
def hasValidAddressPool (cache : DevFeeCache) : Bool :=
  cache.addressPool.length == 10

/-- `getDevFeeAddress()`: requires a valid pool, then round-robins on
`totalDevFeeSolutions % 10`. -/
def getDevFeeAddress (cache : DevFeeCache) : Except String String :=
  if ! hasValidAddressPool cache then
    Except.error "No valid address pool available - dev fee disabled"
  else
    let poolIndex := cache.totalDevFeeSolutions % 10
    match cache.addressPool[poolIndex]? with
    | none => Except.error "No address at pool index"
    | some a => Except.ok a.address

/-- `recordDevFeeSolution()`: bump the global counter, and the legacy
`currentAddress` use-count when one is set; the returned cache is what
`saveCache()` persists. -/
def recordDevFeeSolution (cache : DevFeeCache) : DevFeeCache :=
  let c1 := { cache with totalDevFeeSolutions := cache.totalDevFeeSolutions + 1 }
  match c1.currentAddress with
  | some a => { c1 with currentAddress := some { a with usedCount := a.usedCount + 1 } }
  | none => c1

end DevFee

/-! ## Statistics Aggregator — `src/lib/stats/compute.ts` -/

namespace Stats

/-- `2025-11-20T00:00:00Z` (the `MINING_START_DATE` constant) in epoch
milliseconds. -/
def MINING_START_MS : Int := 1763596800000

/-- `dayFromSubmissionDate`: `floor((ts - miningStart) / 1 day) + 1`. -/
def dayFromSubmissionDate (ts : Int) : Int :=
  (ts - MINING_START_MS).fdiv 86400000 + 1

/-- `rates[rateIndex]` guarded by `rateIndex >= 0 && rateIndex < rates.length`,
else `0` (a day without a published rate contributes zero). -/
def rateOrZero (rates : List ℚ) (day : Int) : ℚ :=
  let rateIndex := day - 1
  if 0 ≤ rateIndex ∧ rateIndex < rates.length then rates.getD rateIndex.toNat 0
  else 0

/-- Accumulator of one global day bucket. -/
structure GDay where
  addresses : List String
  receipts : Nat
  dfo : ℚ
deriving DecidableEq, Repr

/-- `Set.add` on the model of the per-day address set. -/
def addAddress (l : List String) (a : String) : List String :=
  if l.contains a then l else l ++ [a]

/-- One step of the global `for (const receipt of receipts)` loop: bucket by
`dayFromSubmissionDate(receipt.ts)` and add `rates[day-1] ?? 0` to the
bucket's reward. -/
def globalDayStep (rates : List ℚ) (m : List (Int × GDay)) (r : ReceiptEntry) :
    List (Int × GDay) :=
  let day := dayFromSubmissionDate r.ts
  let dfoPerReceipt := rateOrZero rates day
  let m1 := if m.any (fun p => p.1 == day) then m
    else m ++ [(day, { addresses := [], receipts := 0, dfo := 0 })]
  m1.map (fun p =>
    if p.1 == day then
      (p.1, { addresses := addAddress p.2.addresses r.address,
              receipts := p.2.receipts + 1,
              dfo := p.2.dfo + dfoPerReceipt })
    else p)

/-- One row of the global per-day output (the derived `date` string is a
pure function of `day` and is omitted). -/
structure DayStats where
  day : Int
  receipts : Nat
  addresses : Nat
  dfo : ℚ
deriving DecidableEq, Repr

/-- `b.day - a.day ≤ 0` (most recent day first). -/
def dayDesc (a b : DayStats) : Bool := b.day ≤ a.day

/-- The global `days` array of `computeStats`: fold the receipts into the
day map, convert to rows, sort day-descending. -/
def computeStatsDays (receipts : List ReceiptEntry) (rates : List ℚ) :
    List DayStats :=
  let m := receipts.foldl (globalDayStep rates) []
  sortByLe dayDesc (m.map (fun p =>
    { day := p.1, receipts := p.2.receipts, addresses := p.2.addresses.length,
      dfo := p.2.dfo }))

end Stats

/-! ## Retry Coordinator — `POST /api/mining/retry-all`
(`src/unnamed/part_002`) -/

namespace Retry

/-- One per-attempt audit entry of the retry batch. -/
structure RetryResult where
  address : String
  challengeId : String
  nonce : String
  success : Bool
  errMsg : Option String
deriving DecidableEq, Repr

/-- Modelled from the spec: `receiptsLogger.logReceipt` (the logger source is
not provided) — the receipts log is append-only, one appended line per
write. -/
def logReceipt (log : List ReceiptEntry) (r : ReceiptEntry) : List ReceiptEntry :=
  log ++ [r]

/-- Modelled from the spec: `receiptsLogger.removeError` (the logger source
is not provided) — "physically deletes all raw failure events matching the
key from the failure log". -/
def removeError (log : List ErrorEntry) (address challengeId nonce : String) :
    List ErrorEntry :=
  log.filter (fun e =>
    ! (e.address == address && e.challenge_id == challengeId && e.nonce == nonce))

/-- The raw-event predicate "same `(address, challengeId, nonce)` key as
`e`", used to count a key's raw events in the failure log. -/
def keyMatches (e x : ErrorEntry) : Bool :=
  x.address == e.address && x.challenge_id == e.challenge_id &&
    x.nonce == e.nonce

/-- One step of the `rawErrors.forEach` dedup loop: keys with a receipt are
skipped; otherwise the most recent event per key is kept (`map.set` replaces
in place, first occurrence fixes the position). -/
def dedupStep (successKeys : List String) (m : List (String × ErrorEntry))
    (e : ErrorEntry) : List (String × ErrorEntry) :=
  let k := errorKey e
  if successKeys.contains k then m
  else if m.any (fun p => p.1 == k) then
    m.map (fun p => if p.1 == k && decide (p.2.ts < e.ts) then (p.1, e) else p)
  else m ++ [(k, e)]

/-- The batch selection: dedup to the most recent raw event per
not-yet-succeeded key, then keep those from the last 24 hours. -/
def selectRecentErrors (receipts : List ReceiptEntry)
    (rawErrors : List ErrorEntry) (now : Int) : List ErrorEntry :=
  let successfulSolutions := receipts.map receiptKey
  let twentyFourHoursAgo := now - 24 * 60 * 60 * 1000
  let m := rawErrors.foldl (dedupStep successfulSolutions) []
  (m.map Prod.snd).filter (fun e => decide (twentyFourHoursAgo < e.ts))

/-- The evolving state of the retry batch: both logs plus the audit trail. -/
structure RetryOutcome where
  receipts : List ReceiptEntry
  errors : List ErrorEntry
  results : List RetryResult
  succeeded : Nat
  failed : Nat
deriving DecidableEq, Repr

/-- One iteration of the retry loop.  `submit` is the external authority
call (`axios.post`), returning `ok` on acceptance and the caught error
message otherwise.  On success a receipt is appended and the key's raw
failure events are deleted; on failure only the audit entry records the
outcome — the failure log is not written. -/
def retryStep (submit : ErrorEntry → Except String Unit) (now : Int)
    (st : RetryOutcome) (e : ErrorEntry) : RetryOutcome :=
  match submit e with
  | Except.ok _ =>
      { st with
        receipts := logReceipt st.receipts
          { ts := now, address := e.address, addressIndex := e.addressIndex,
            challenge_id := e.challenge_id, nonce := e.nonce, hash := e.hash,
            crypto_receipt := none, isDevFee := false },
        errors := removeError st.errors e.address e.challenge_id e.nonce,
        results := st.results ++
          [{ address := e.address, challengeId := e.challenge_id,
             nonce := e.nonce, success := true, errMsg := none }],
        succeeded := st.succeeded + 1 }
  | Except.error msg =>
      { st with
        results := st.results ++
          [{ address := e.address, challengeId := e.challenge_id,
             nonce := e.nonce, success := false, errMsg := some msg }],
        failed := st.failed + 1 }

/-- The whole `POST /api/mining/retry-all` batch over the two logs. -/
def retryAll (receipts : List ReceiptEntry) (rawErrors : List ErrorEntry)
    (now : Int) (submit : ErrorEntry → Except String Unit) : RetryOutcome :=
  let recentErrors := selectRecentErrors receipts rawErrors now
  recentErrors.foldl (retryStep submit now)
    { receipts := receipts, errors := rawErrors, results := [],
      succeeded := 0, failed := 0 }

end Retry

/-! # Theorems -/

/-! ## Stable-sort lemmas -/

theorem insertByLe_perm {α : Type} (le : α → α → Bool) (a : α) (l : List α) :
    List.Perm (insertByLe le a l) (a :: l) := by
  induction l with
  | nil => simp [insertByLe]
  | cons b t ih =>
      simp only [insertByLe]
      by_cases h : le a b
      · simp [h]
      · simp only [h, if_neg, Bool.false_eq_true, if_false]
        exact (ih.cons b).trans (List.Perm.swap a b t)

theorem sortByLe_perm {α : Type} (le : α → α → Bool) (l : List α) :
    List.Perm (sortByLe le l) l := by
  induction l with
  | nil => simp [sortByLe]
  | cons a t ih =>
      exact (insertByLe_perm le a (sortByLe le t)).trans (ih.cons a)

theorem mem_sortByLe {α : Type} (le : α → α → Bool) (l : List α) (x : α) :
    x ∈ sortByLe le l ↔ x ∈ l :=
  (sortByLe_perm le l).mem_iff

theorem sortByLe_eq_nil_iff {α : Type} (le : α → α → Bool) (l : List α) :
    sortByLe le l = [] ↔ l = [] := by
  constructor
  · intro h
    have := (sortByLe_perm le l).length_eq
    rw [h] at this
    exact List.length_eq_zero.mp this.symm
  · intro h; subst h; rfl

/-- The head of a stable sort is a `le`-least element of the list, provided
`le` is total and transitive on elements satisfying `P`. -/
theorem sortByLe_head_least {α : Type} (le : α → α → Bool) (P : α → Prop)
    (htot : ∀ a b, P a → P b → le a b = true ∨ le b a = true)
    (htrans : ∀ a b c, P a → P b → P c →
      le a b = true → le b c = true → le a c = true) :
    ∀ (l : List α), (∀ x ∈ l, P x) → ∀ e, (sortByLe le l).head? = some e →
      e ∈ l ∧ ∀ x ∈ l, le e x = true := by
  intro l
  induction l with
  | nil => intro _ e he; simp [sortByLe] at he
  | cons a t ih =>
      intro hP e he
      have hPa : P a := hP a (List.mem_cons_self a t)
      have hPt : ∀ x ∈ t, P x := fun x hx => hP x (List.mem_cons_of_mem a hx)
      cases hst : sortByLe le t with
      | nil =>
        have ht : t = [] := (sortByLe_eq_nil_iff le t).mp hst
        subst ht
        simp only [sortByLe, hst, insertByLe, List.head?] at he
        have h : a = e := Option.some.inj he
        cases h
        refine ⟨List.mem_cons_self a [], ?_⟩
        intro x hx
        rcases List.mem_singleton.mp hx with rfl
        rcases htot x x hPa hPa with h | h <;> exact h
      | cons b rest =>
        have hb : b ∈ t ∧ ∀ x ∈ t, le b x = true := by
          apply ih hPt b
          rw [hst]; rfl
        have hPb : P b := hPt b hb.1
        simp only [sortByLe, hst, insertByLe] at he
        by_cases hab : le a b
        · rw [if_pos hab] at he
          simp only [List.head?] at he
          have h : a = e := Option.some.inj he
          cases h
          refine ⟨List.mem_cons_self a t, ?_⟩
          intro x hx
          rcases List.mem_cons.mp hx with rfl | hx
          · rcases htot x x hPa hPa with h | h <;> exact h
          · exact htrans a b x hPa hPb (hPt x hx) hab (hb.2 x hx)
        · rw [if_neg hab] at he
          simp only [List.head?] at he
          have h : b = e := Option.some.inj he
          cases h
          refine ⟨List.mem_cons_of_mem a hb.1, ?_⟩
          intro x hx
          rcases List.mem_cons.mp hx with rfl | hx
          · rcases htot x e hPa hPb with h | h
            · exact absurd h hab
            · exact h
          · exact hb.2 x hx

/-! ## Nonce Space Partitioner lemmas and claim C6 -/

namespace Nonce

theorem byteToHexChars_eq_digits (b : Nat) :
    byteToHexChars b = [hexDigit (b / 16), hexDigit (b % 16)] := by
  unfold byteToHexChars
  by_cases h : b < 16
  · rw [if_pos h]
    have h1 : b / 16 = 0 := Nat.div_eq_of_lt h
    have h2 : b % 16 = b := Nat.mod_eq_of_lt h
    rw [h1, h2]
    rfl
  · rw [if_neg h]

theorem byteToHexChars_length (b : Nat) : (byteToHexChars b).length = 2 := by
  rw [byteToHexChars_eq_digits]
  rfl

theorem hexDigit_inj (m n : Nat) (hm : m < 16) (hn : n < 16)
    (h : hexDigit m = hexDigit n) : m = n := by
  interval_cases m <;> interval_cases n <;> simp_all [hexDigit]

theorem hexDigit_isHexChar (n : Nat) (hn : n < 16) :
    isHexChar (hexDigit n) = true := by
  interval_cases n <;> decide

theorem byteToHexChars_inj (m n : Nat) (hm : m < 256) (hn : n < 256)
    (h : byteToHexChars m = byteToHexChars n) : m = n := by
  rw [byteToHexChars_eq_digits m, byteToHexChars_eq_digits n] at h
  have h1 : hexDigit (m / 16) = hexDigit (n / 16) := by
    injection h
  have h2 : hexDigit (m % 16) = hexDigit (n % 16) := by
    injection h with _ h2
    injection h2
  have hd : m / 16 = n / 16 :=
    hexDigit_inj _ _ (Nat.div_lt_of_lt_mul hm) (Nat.div_lt_of_lt_mul hn) h1
  have hr : m % 16 = n % 16 :=
    hexDigit_inj _ _ (Nat.mod_lt m (by norm_num)) (Nat.mod_lt n (by norm_num)) h2
  calc m = 16 * (m / 16) + m % 16 := (Nat.div_add_mod m 16).symm
    _ = 16 * (n / 16) + n % 16 := by rw [hd, hr]
    _ = n := Nat.div_add_mod n 16

theorem and_255_eq (w : Nat) (hw : w ≤ 255) : w &&& 0xFF = w := by
  have h := Nat.and_pow_two_sub_one_eq_mod w 8
  norm_num at h
  rw [h]
  exact Nat.mod_eq_of_lt (Nat.lt_succ_of_le hw)

theorem byteToHexChars_all_hex (b : Nat) (hb : b < 256) :
    ∀ c ∈ byteToHexChars b, isHexChar c = true := by
  rw [byteToHexChars_eq_digits]
  intro c hc
  rcases List.mem_cons.mp hc with rfl | hc
  · exact hexDigit_isHexChar _ (Nat.div_lt_of_lt_mul hb)
  · rcases List.mem_singleton.mp hc with rfl
    exact hexDigit_isHexChar _ (Nat.mod_lt b (by norm_num))

theorem nonceOf_length (w : Nat) (rand : List Nat) (hr : rand.length = 7) :
    (nonceOf w rand).length = 16 := by
  show ((((w &&& 0xFF) :: rand).map byteToHexChars).flatten).length = 16
  have hlen : ∀ (l : List Nat),
      (l.map byteToHexChars).flatten.length = 2 * l.length := by
    intro l
    induction l with
    | nil => rfl
    | cons x t ih =>
        simp only [List.map_cons, List.flatten_cons, List.length_append, ih,
          byteToHexChars_length, List.length_cons]
        ring
  rw [hlen, List.length_cons, hr]

theorem nonceOf_take_two (w : Nat) (rand : List Nat) (hw : w ≤ 255) :
    (nonceOf w rand).data.take 2 = byteToHexChars w := by
  show ((((w &&& 0xFF) :: rand).map byteToHexChars).flatten).take 2
    = byteToHexChars w
  rw [and_255_eq w hw]
  simp only [List.map_cons, List.flatten_cons]
  rw [List.take_append_of_le_length (by rw [byteToHexChars_length])]
  rw [List.take_of_length_le (by rw [byteToHexChars_length])]

theorem nonceOf_all_hex (w : Nat) (rand : List Nat) (hw : w ≤ 255)
    (hb : ∀ b ∈ rand, b < 256) :
    (nonceOf w rand).data.all isHexChar = true := by
  rw [List.all_eq_true]
  intro c hc
  have hc : c ∈ (((w &&& 0xFF) :: rand).map byteToHexChars).flatten := hc
  rcases List.mem_flatten.mp hc with ⟨cs, hcs, hcmem⟩
  rcases List.mem_map.mp hcs with ⟨b, hbmem, rfl⟩
  rcases List.mem_cons.mp hbmem with rfl | hbmem
  · rw [and_255_eq w hw] at hcmem
    exact byteToHexChars_all_hex w (Nat.lt_succ_of_le hw) c hcmem
  · exact byteToHexChars_all_hex b (hb b hbmem) c hcmem

end Nonce

/-- C6: for every `workerId` in `[0, 255]` and any 7 random bytes, the
generated nonce is accepted by the length guard (the fail-fast error is
never raised), is a string of exactly 16 hexadecimal characters whose first
two characters are `workerId` rendered as a two-digit hex byte, and two
workers with distinct IDs can never generate the same value. -/
theorem generateNonce_partition (w1 w2 : Nat) (r1 r2 : List Nat)
    (hw1 : w1 ≤ 255) (hw2 : w2 ≤ 255) (hne : w1 ≠ w2)
    (hr1 : r1.length = 7) (hr2 : r2.length = 7)
    (hb1 : ∀ b ∈ r1, b < 256) :
    Nonce.generateNonce w1 r1 = Except.ok (Nonce.nonceOf w1 r1) ∧
    (Nonce.nonceOf w1 r1).length = 16 ∧
    (Nonce.nonceOf w1 r1).data.all Nonce.isHexChar = true ∧
    (Nonce.nonceOf w1 r1).data.take 2 = Nonce.byteToHexChars w1 ∧
    Nonce.nonceOf w1 r1 ≠ Nonce.nonceOf w2 r2 := by
  have hlen1 := Nonce.nonceOf_length w1 r1 hr1
  refine ⟨?_, hlen1, Nonce.nonceOf_all_hex w1 r1 hw1 hb1,
    Nonce.nonceOf_take_two w1 r1 hw1, ?_⟩
  · unfold Nonce.generateNonce
    rw [if_neg (by rw [hlen1]; exact fun h => h rfl)]
  · intro heq
    have htake : (Nonce.nonceOf w1 r1).data.take 2
        = (Nonce.nonceOf w2 r2).data.take 2 := by rw [heq]
    rw [Nonce.nonceOf_take_two w1 r1 hw1, Nonce.nonceOf_take_two w2 r2 hw2]
      at htake
    exact hne (Nonce.byteToHexChars_inj w1 w2 (Nat.lt_succ_of_le hw1)
      (Nat.lt_succ_of_le hw2) htake)

/-! ## Submission Ledger reconciliation lemmas and claims C1, C10 -/

/-- Invariant propagation along a left fold. -/
theorem foldl_inv {σ α : Type} (step : σ → α → σ) (P : σ → Prop)
    (l : List α) (s : σ) (h : P s) (hstep : ∀ s a, P s → P (step s a)) :
    P (l.foldl step s) := by
  induction l generalizing s with
  | nil => exact h
  | cons a t ih => exact ih (step s a) (hstep s a h)

namespace Ledger

theorem reconcile_receipts_def (receiptsLog : List ReceiptEntry)
    (rawErrors : List ErrorEntry) (now : Int) :
    (reconcile receiptsLog rawErrors now).receipts
      = sortByLe tsDescR receiptsLog := rfl

theorem reconcile_activeFailures_def (receiptsLog : List ReceiptEntry)
    (rawErrors : List ErrorEntry) (now : Int) :
    (reconcile receiptsLog rawErrors now).activeFailures
      = sortByLe lastAttemptDescU
          (((sortByLe tsDescE rawErrors).foldl collapseStep []).filter
            (fun u => ! ((sortByLe tsDescR receiptsLog).map
              receiptKey).contains (uniqueKey u))) := rfl

theorem reconcile_addressHistory_def (receiptsLog : List ReceiptEntry)
    (rawErrors : List ErrorEntry) (now : Int) :
    (reconcile receiptsLog rawErrors now).addressHistory
      = sortByLe lastAttemptDescH
          ((((sortByLe tsDescR receiptsLog).foldl procReceipt
              ((sortByLe lastAttemptDescU
                (((sortByLe tsDescE rawErrors).foldl collapseStep []).filter
                  (fun u => ! ((sortByLe tsDescR receiptsLog).map
                    receiptKey).contains (uniqueKey u)))).foldl procFailure
                [])).map
            (fun p => (p.1, finalizeStatus p.2))).map Prod.snd) := by
  rfl

theorem failUpdate_counts (u : UniqueError) (h : AddressHistory) :
    (failUpdate u h).successCount = h.successCount ∧
    (failUpdate u h).failureCount = h.failureCount + 1 := by
  simp only [failUpdate]
  split <;> exact ⟨rfl, rfl⟩

theorem recUpdate_counts (r : ReceiptEntry) (h : AddressHistory) :
    (recUpdate r h).status = HStatus.success ∧
    (recUpdate r h).successCount = h.successCount + 1 := by
  simp only [recUpdate]
  split <;> exact ⟨rfl, rfl⟩

theorem procFailure_inv (m : List (String × AddressHistory)) (u : UniqueError)
    (hm : ∀ p ∈ m, p.2.successCount = 0 ∧ 1 ≤ p.2.failureCount) :
    ∀ p ∈ procFailure m u, p.2.successCount = 0 ∧ 1 ≤ p.2.failureCount := by
  intro p hp
  unfold procFailure updateAt at hp
  obtain ⟨q, hq, rfl⟩ := List.mem_map.mp hp
  have hq' : q ∈ m ∨
      q = (idxKey u.addressIndex u.challenge_id, freshFromFailure u) := by
    by_cases hhk : hasKey m (idxKey u.addressIndex u.challenge_id)
    · rw [if_pos hhk] at hq; exact Or.inl hq
    · rw [if_neg hhk] at hq
      rcases List.mem_append.mp hq with h | h
      · exact Or.inl h
      · exact Or.inr (List.mem_singleton.mp h)
  rcases hq' with hqm | rfl
  · by_cases hk : (q.1 == idxKey u.addressIndex u.challenge_id)
    · rw [if_pos hk]
      refine ⟨?_, ?_⟩
      · rw [(failUpdate_counts u q.2).1]
        exact (hm q hqm).1
      · rw [(failUpdate_counts u q.2).2]
        exact Nat.le_succ_of_le (hm q hqm).2
    · rw [if_neg hk]
      exact hm q hqm
  · rw [if_pos (by simp)]
    refine ⟨?_, ?_⟩
    · rw [(failUpdate_counts u _).1]; rfl
    · rw [(failUpdate_counts u _).2]
      exact Nat.le_refl 1

theorem procReceipt_inv (m : List (String × AddressHistory)) (r : ReceiptEntry)
    (hm : ∀ p ∈ m, (p.2.status = HStatus.success ∧ 1 ≤ p.2.successCount) ∨
      (p.2.successCount = 0 ∧ 1 ≤ p.2.failureCount)) :
    ∀ p ∈ procReceipt m r,
      (p.2.status = HStatus.success ∧ 1 ≤ p.2.successCount) ∨
      (p.2.successCount = 0 ∧ 1 ≤ p.2.failureCount) := by
  intro p hp
  unfold procReceipt updateAt at hp
  obtain ⟨q, hq, rfl⟩ := List.mem_map.mp hp
  have hq' : q ∈ m ∨
      q = (idxKey r.addressIndex r.challenge_id, freshFromReceipt r) := by
    by_cases hhk : hasKey m (idxKey r.addressIndex r.challenge_id)
    · rw [if_pos hhk] at hq; exact Or.inl hq
    · rw [if_neg hhk] at hq
      rcases List.mem_append.mp hq with h | h
      · exact Or.inl h
      · exact Or.inr (List.mem_singleton.mp h)
  rcases hq' with hqm | rfl
  · by_cases hk : (q.1 == idxKey r.addressIndex r.challenge_id)
    · rw [if_pos hk]
      exact Or.inl ⟨(recUpdate_counts r q.2).1, by
        rw [(recUpdate_counts r q.2).2]; exact Nat.le_add_left 1 _⟩
    · rw [if_neg hk]
      exact hm q hqm
  · rw [if_pos (by simp)]
    exact Or.inl ⟨(recUpdate_counts r _).1, by
      rw [(recUpdate_counts r _).2]; exact Nat.le_add_left 1 _⟩

theorem finalizeStatus_resolved (h : AddressHistory)
    (hP : (h.status = HStatus.success ∧ 1 ≤ h.successCount) ∨
      (h.successCount = 0 ∧ 1 ≤ h.failureCount)) :
    (finalizeStatus h).status = HStatus.success ∨
    (finalizeStatus h).status = HStatus.failed := by
  unfold finalizeStatus
  rcases hP with ⟨hs, hc⟩ | ⟨hs0, hf⟩
  · rw [if_neg]
    · exact Or.inl hs
    · simp only [Bool.and_eq_true, beq_iff_eq, decide_eq_true_eq, not_and]
      intro hzero
      omega
  · rw [if_pos]
    · exact Or.inr rfl
    · simp only [Bool.and_eq_true, beq_iff_eq, decide_eq_true_eq]
      exact ⟨hs0, hf⟩

end Ledger

/-- C1: reconciliation gives success precedence over failure — for any
contents of the two logs, `activeFailures` contains no entry whose
`(address, challengeId, nonce)` key also appears in the receipts log, and
the reconciled receipts preserve the log's per-key receipt count (so three
raw failures for a key followed by one receipt for it yield zero
`activeFailures` entries and exactly one receipt for that key, regardless
of event ordering). -/
theorem reconcile_success_precedence (receiptsLog : List ReceiptEntry)
    (rawErrors : List ErrorEntry) (now : Int) (r : ReceiptEntry)
    (hr : r ∈ receiptsLog) :
    (Ledger.reconcile receiptsLog rawErrors now).activeFailures.filter
        (fun u => Ledger.uniqueKey u == receiptKey r) = [] ∧
    ((Ledger.reconcile receiptsLog rawErrors now).receipts.filter
        (fun x => receiptKey x == receiptKey r)).length
      = (receiptsLog.filter (fun x => receiptKey x == receiptKey r)).length := by
  constructor
  · rw [List.filter_eq_nil_iff]
    intro u hu
    rw [Ledger.reconcile_activeFailures_def, mem_sortByLe] at hu
    have hcontains := List.of_mem_filter hu
    intro hk
    have hk' : Ledger.uniqueKey u = receiptKey r := by
      exact beq_iff_eq.mp hk
    have hmem : receiptKey r ∈ (sortByLe Ledger.tsDescR receiptsLog).map
        receiptKey :=
      List.mem_map_of_mem receiptKey ((mem_sortByLe _ _ _).mpr hr)
    have hcon : ((sortByLe Ledger.tsDescR receiptsLog).map
        receiptKey).contains (Ledger.uniqueKey u) = true := by
      rw [hk']
      exact List.elem_iff.mpr hmem
    rw [hcon] at hcontains
    exact absurd hcontains (by decide)
  · rw [Ledger.reconcile_receipts_def]
    exact ((sortByLe_perm Ledger.tsDescR receiptsLog).filter _).length_eq

/-- Witness for C1: three raw failures for a key followed by one receipt for
the same key leave no active failure and exactly one receipt for it. -/
theorem reconcile_success_precedence_witness :
    (Ledger.reconcile
        [{ ts := 40, address := "a", addressIndex := some 1,
           challenge_id := "c", nonce := "n", hash := "h",
           crypto_receipt := none, isDevFee := false }]
        [{ ts := 10, address := "a", addressIndex := some 1,
           challenge_id := "c", nonce := "n", hash := "h", errMsg := "e1" },
         { ts := 20, address := "a", addressIndex := some 1,
           challenge_id := "c", nonce := "n", hash := "h", errMsg := "e2" },
         { ts := 30, address := "a", addressIndex := some 1,
           challenge_id := "c", nonce := "n", hash := "h", errMsg := "e3" }]
        100).activeFailures.filter
        (fun u => Ledger.uniqueKey u ==
          receiptKey
            { ts := 40, address := "a", addressIndex := some 1,
              challenge_id := "c", nonce := "n", hash := "h",
              crypto_receipt := none, isDevFee := false }) = [] ∧
    ((Ledger.reconcile
        [{ ts := 40, address := "a", addressIndex := some 1,
           challenge_id := "c", nonce := "n", hash := "h",
           crypto_receipt := none, isDevFee := false }]
        [{ ts := 10, address := "a", addressIndex := some 1,
           challenge_id := "c", nonce := "n", hash := "h", errMsg := "e1" },
         { ts := 20, address := "a", addressIndex := some 1,
           challenge_id := "c", nonce := "n", hash := "h", errMsg := "e2" },
         { ts := 30, address := "a", addressIndex := some 1,
           challenge_id := "c", nonce := "n", hash := "h", errMsg := "e3" }]
        100).receipts.filter
        (fun x => receiptKey x ==
          receiptKey
            { ts := 40, address := "a", addressIndex := some 1,
              challenge_id := "c", nonce := "n", hash := "h",
              crypto_receipt := none, isDevFee := false })).length
      = ([{ ts := 40, address := "a", addressIndex := some 1,
            challenge_id := "c", nonce := "n", hash := "h",
            crypto_receipt := none,
            isDevFee := false }].filter
          (fun x => (receiptKey x ==
            receiptKey
              { ts := 40, address := "a", addressIndex := some 1,
                challenge_id := "c", nonce := "n", hash := "h",
                crypto_receipt := none, isDevFee := false }))).length :=
  reconcile_success_precedence _ _ 100 _ (List.mem_singleton.mpr rfl)

/-- C10: the `'pending'` status is unreachable in reconciliation output —
every `addressHistory` entry has status `'success'` or `'failed'`. -/
theorem reconcile_no_pending (receiptsLog : List ReceiptEntry)
    (rawErrors : List ErrorEntry) (now : Int) (h : Ledger.AddressHistory)
    (hmem : h ∈ (Ledger.reconcile receiptsLog rawErrors now).addressHistory) :
    h.status = Ledger.HStatus.success ∨ h.status = Ledger.HStatus.failed := by
  rw [Ledger.reconcile_addressHistory_def, mem_sortByLe, List.map_map] at hmem
  obtain ⟨p, hp, rfl⟩ := List.mem_map.mp hmem
  apply Ledger.finalizeStatus_resolved
  have hm1 : ∀ q ∈ ((sortByLe Ledger.lastAttemptDescU
      (((sortByLe Ledger.tsDescE rawErrors).foldl Ledger.collapseStep
        []).filter
        (fun u => ! ((sortByLe Ledger.tsDescR receiptsLog).map
          receiptKey).contains (Ledger.uniqueKey u)))).foldl
      Ledger.procFailure []),
      q.2.successCount = 0 ∧ 1 ≤ q.2.failureCount := by
    apply foldl_inv Ledger.procFailure
      (fun m => ∀ q ∈ m, q.2.successCount = 0 ∧ 1 ≤ q.2.failureCount)
    · intro q hq
      exact absurd hq (List.not_mem_nil q)
    · intro s a hs
      exact Ledger.procFailure_inv s a hs
  have hm2 : ∀ q ∈ ((sortByLe Ledger.tsDescR receiptsLog).foldl
      Ledger.procReceipt
      ((sortByLe Ledger.lastAttemptDescU
        (((sortByLe Ledger.tsDescE rawErrors).foldl Ledger.collapseStep
          []).filter
          (fun u => ! ((sortByLe Ledger.tsDescR receiptsLog).map
            receiptKey).contains (Ledger.uniqueKey u)))).foldl
        Ledger.procFailure [])),
      (q.2.status = Ledger.HStatus.success ∧ 1 ≤ q.2.successCount) ∨
      (q.2.successCount = 0 ∧ 1 ≤ q.2.failureCount) := by
    apply foldl_inv Ledger.procReceipt
      (fun m => ∀ q ∈ m,
        (q.2.status = Ledger.HStatus.success ∧ 1 ≤ q.2.successCount) ∨
        (q.2.successCount = 0 ∧ 1 ≤ q.2.failureCount))
    · intro q hq
      exact Or.inr (hm1 q hq)
    · intro s a hs
      exact Ledger.procReceipt_inv s a hs
  exact hm2 p hp

/-- Witness for C10 at a log with one failure and no receipt: the single
group comes out `'failed'`. -/
theorem reconcile_no_pending_witness :
    ({ addressIndex := 1, address := "a", challengeId := "c",
       successCount := 0, failureCount := 1, totalAttempts := 1,
       status := Ledger.HStatus.failed, lastAttempt := 0,
       failures := [{ ts := 0, nonce := "n", hash := "h", errMsg := "x" }],
       successTimestamp := none } : Ledger.AddressHistory).status
        = Ledger.HStatus.success ∨
    ({ addressIndex := 1, address := "a", challengeId := "c",
       successCount := 0, failureCount := 1, totalAttempts := 1,
       status := Ledger.HStatus.failed, lastAttempt := 0,
       failures := [{ ts := 0, nonce := "n", hash := "h", errMsg := "x" }],
       successTimestamp := none } : Ledger.AddressHistory).status
        = Ledger.HStatus.failed :=
  reconcile_no_pending []
    [{ ts := 0, address := "a", addressIndex := some 1, challenge_id := "c",
       nonce := "n", hash := "h", errMsg := "x" }] 0 _ (by decide)

/-! ## Challenge Selector lemmas and claim C2 -/

namespace Challenges

theorem chLe_total (a b : ChallengeHistoryEntry)
    (ha : (jsParseIntHex a.difficulty).isSome)
    (hb : (jsParseIntHex b.difficulty).isSome) :
    chLe a b = true ∨ chLe b a = true := by
  obtain ⟨da, hda⟩ := Option.isSome_iff_exists.mp ha
  obtain ⟨db, hdb⟩ := Option.isSome_iff_exists.mp hb
  simp only [chLe, hda, hdb]
  by_cases h : da = db
  · subst h
    simp only [ne_eq, not_true_eq_false, if_neg, ite_false,
      decide_eq_true_eq, if_false]
    omega
  · rw [if_pos h, if_pos (Ne.symm h)]
    simp only [decide_eq_true_eq]
    omega

theorem chLe_trans (a b c : ChallengeHistoryEntry)
    (ha : (jsParseIntHex a.difficulty).isSome)
    (hb : (jsParseIntHex b.difficulty).isSome)
    (hc : (jsParseIntHex c.difficulty).isSome)
    (hab : chLe a b = true) (hbc : chLe b c = true) : chLe a c = true := by
  obtain ⟨da, hda⟩ := Option.isSome_iff_exists.mp ha
  obtain ⟨db, hdb⟩ := Option.isSome_iff_exists.mp hb
  obtain ⟨dc, hdc⟩ := Option.isSome_iff_exists.mp hc
  simp only [chLe, hda, hdb, hdc] at hab hbc ⊢
  by_cases h1 : da = db <;> by_cases h2 : db = dc
  · rw [if_neg (by omega : ¬ da ≠ db)] at hab
    rw [if_neg (by omega : ¬ db ≠ dc)] at hbc
    rw [if_neg (by omega : ¬ da ≠ dc)]
    simp only [decide_eq_true_eq] at hab hbc ⊢
    omega
  · rw [if_neg (by omega : ¬ da ≠ db)] at hab
    rw [if_pos (by omega : db ≠ dc)] at hbc
    rw [if_pos (by omega : da ≠ dc)]
    simp only [decide_eq_true_eq] at hbc ⊢
    omega
  · rw [if_pos (by omega : da ≠ db)] at hab
    rw [if_neg (by omega : ¬ db ≠ dc)] at hbc
    rw [if_pos (by omega : da ≠ dc)]
    simp only [decide_eq_true_eq] at hab ⊢
    omega
  · rw [if_pos (by omega : da ≠ db)] at hab
    rw [if_pos (by omega : db ≠ dc)] at hbc
    simp only [decide_eq_true_eq] at hab hbc
    have hac : da ≠ dc := by omega
    rw [if_pos hac]
    simp only [decide_eq_true_eq]
    omega

end Challenges

/-- C2: `selectBest` (`getEasiestValidChallenge`) only considers challenges
of the profile whose deadline exceeds `now + minMinutesRemaining`; among
those (when all difficulties parse as hex) it returns one whose hex
difficulty is maximal, with the earliest deadline among equal-difficulty
candidates; and it returns `none` exactly when no challenge clears the
minimum-remaining-time bar. -/
theorem selectBest_spec (history : Challenges.History) (pid : String)
    (minM now : Int)
    (hparse : ∀ p ∈ history, (Challenges.jsParseIntHex p.2.difficulty).isSome) :
    (Challenges.getEasiestValidChallenge history pid minM now = none ↔
      (history.map Prod.snd).filter
        (fun x => x.profileId == pid &&
          decide (minM * 60 * 1000 < x.expiresAt - now)) = []) ∧
    ∀ e, Challenges.getEasiestValidChallenge history pid minM now = some e →
      e.profileId = pid ∧ now + minM * 60 * 1000 < e.expiresAt ∧
      ∀ f ∈ (history.map Prod.snd).filter
          (fun x => x.profileId == pid &&
            decide (minM * 60 * 1000 < x.expiresAt - now)),
        ∀ de df, Challenges.jsParseIntHex e.difficulty = some de →
          Challenges.jsParseIntHex f.difficulty = some df →
          df < de ∨ (df = de ∧ e.expiresAt ≤ f.expiresAt) := by
  have hPfil : ∀ x ∈ (history.map Prod.snd).filter
      (fun x => x.profileId == pid &&
        decide (minM * 60 * 1000 < x.expiresAt - now)),
      (Challenges.jsParseIntHex x.difficulty).isSome := by
    intro x hx
    obtain ⟨p, hp, rfl⟩ := List.mem_map.mp (List.mem_of_mem_filter hx)
    exact hparse p hp
  constructor
  · constructor
    · intro h
      by_cases hempty : ((history.map Prod.snd).filter
          (fun x => x.profileId == pid &&
            decide (minM * 60 * 1000 < x.expiresAt - now))).isEmpty
      · exact List.isEmpty_iff.mp hempty
      · exfalso
        unfold Challenges.getEasiestValidChallenge at h
        rw [if_neg (by simpa using hempty)] at h
        rcases hsort : sortByLe Challenges.chLe
            ((history.map Prod.snd).filter
              (fun x => x.profileId == pid &&
                decide (minM * 60 * 1000 < x.expiresAt - now))) with _ | ⟨y, ys⟩
        · exact hempty (List.isEmpty_iff.mpr
            ((sortByLe_eq_nil_iff _ _).mp hsort))
        · rw [hsort] at h
          exact Option.noConfusion h
    · intro h
      unfold Challenges.getEasiestValidChallenge
      rw [if_pos (by simp [h])]
  · intro e he
    unfold Challenges.getEasiestValidChallenge at he
    by_cases hempty : ((history.map Prod.snd).filter
        (fun x => x.profileId == pid &&
          decide (minM * 60 * 1000 < x.expiresAt - now))).isEmpty
    · rw [if_pos (by simpa using hempty)] at he
      exact Option.noConfusion he
    · rw [if_neg (by simpa using hempty)] at he
      have hleast := sortByLe_head_least Challenges.chLe
        (fun x => (Challenges.jsParseIntHex x.difficulty).isSome = true)
        (fun a b ha hb => Challenges.chLe_total a b ha hb)
        (fun a b c ha hb hc => Challenges.chLe_trans a b c ha hb hc)
        _ (fun x hx => hPfil x hx) e he
      obtain ⟨hmem, hmin⟩ := hleast
      have hpred := List.of_mem_filter hmem
      simp only [Bool.and_eq_true, beq_iff_eq, decide_eq_true_eq] at hpred
      refine ⟨hpred.1, by omega, ?_⟩
      intro f hf de df hde hdf
      have hch := hmin f hf
      simp only [Challenges.chLe, hde, hdf] at hch
      by_cases hne : de = df
      · subst hne
        rw [if_neg (by omega : ¬ de ≠ de)] at hch
        simp only [decide_eq_true_eq] at hch
        exact Or.inr ⟨rfl, hch⟩
      · rw [if_pos hne] at hch
        simp only [decide_eq_true_eq] at hch
        exact Or.inl (by omega)

/-- Witness for C2 at the spec's own example: A(difficulty 0xFF, deadline
+2h) beats B(difficulty 0xAA, deadline +1h). -/
theorem selectBest_spec_witness :
    (Challenges.getEasiestValidChallenge
        [("A", { challenge_id := "A", difficulty := "ff", no_pre_mine := "p",
                 latest_submission := 7200000, no_pre_mine_hour := "0",
                 firstSeenAt := 0, lastSeenAt := 0, profileId := "prof",
                 validityHours := 24, expiresAt := 7200000,
                 difficultyChanges := [] }),
         ("B", { challenge_id := "B", difficulty := "aa", no_pre_mine := "p",
                 latest_submission := 3600000, no_pre_mine_hour := "0",
                 firstSeenAt := 0, lastSeenAt := 0, profileId := "prof",
                 validityHours := 24, expiresAt := 3600000,
                 difficultyChanges := [] })] "prof" 15 0 = none ↔
      ((([("A", { challenge_id := "A", difficulty := "ff",
                   no_pre_mine := "p", latest_submission := 7200000,
                   no_pre_mine_hour := "0", firstSeenAt := 0, lastSeenAt := 0,
                   profileId := "prof", validityHours := 24,
                   expiresAt := 7200000, difficultyChanges := [] }),
           ("B", { challenge_id := "B", difficulty := "aa",
                   no_pre_mine := "p", latest_submission := 3600000,
                   no_pre_mine_hour := "0", firstSeenAt := 0, lastSeenAt := 0,
                   profileId := "prof", validityHours := 24,
                   expiresAt := 3600000, difficultyChanges := [] })]) :
          Challenges.History).map Prod.snd).filter
        (fun x => x.profileId == "prof" &&
          decide ((15 : Int) * 60 * 1000 < x.expiresAt - 0)) = []) ∧
    ∀ e, Challenges.getEasiestValidChallenge
        [("A", { challenge_id := "A", difficulty := "ff", no_pre_mine := "p",
                 latest_submission := 7200000, no_pre_mine_hour := "0",
                 firstSeenAt := 0, lastSeenAt := 0, profileId := "prof",
                 validityHours := 24, expiresAt := 7200000,
                 difficultyChanges := [] }),
         ("B", { challenge_id := "B", difficulty := "aa", no_pre_mine := "p",
                 latest_submission := 3600000, no_pre_mine_hour := "0",
                 firstSeenAt := 0, lastSeenAt := 0, profileId := "prof",
                 validityHours := 24, expiresAt := 3600000,
                 difficultyChanges := [] })] "prof" 15 0 = some e →
      e.profileId = "prof" ∧ (0 : Int) + 15 * 60 * 1000 < e.expiresAt ∧
      ∀ f ∈ (([("A", { challenge_id := "A", difficulty := "ff",
                         no_pre_mine := "p", latest_submission := 7200000,
                         no_pre_mine_hour := "0", firstSeenAt := 0,
                         lastSeenAt := 0, profileId := "prof",
                         validityHours := 24, expiresAt := 7200000,
                         difficultyChanges := [] }),
                 ("B", { challenge_id := "B", difficulty := "aa",
                         no_pre_mine := "p", latest_submission := 3600000,
                         no_pre_mine_hour := "0", firstSeenAt := 0,
                         lastSeenAt := 0, profileId := "prof",
                         validityHours := 24, expiresAt := 3600000,
                         difficultyChanges := [] })] :
              Challenges.History).map Prod.snd).filter
          (fun x => x.profileId == "prof" &&
            decide ((15 : Int) * 60 * 1000 < x.expiresAt - 0)),
        ∀ de df, Challenges.jsParseIntHex e.difficulty = some de →
          Challenges.jsParseIntHex f.difficulty = some df →
          df < de ∨ (df = de ∧ e.expiresAt ≤ f.expiresAt) :=
  selectBest_spec _ "prof" 15 0 (by decide)

/-! ## Challenge Ledger lemmas and claims C3, C4 -/

namespace Challenges

theorem logChallenge_none_shape (st : History) (c : ChallengeIn) (p : String)
    (h : Nat) (t : Int)
    (hnone : st.find? (fun q => q.1 == c.challenge_id) = none) :
    ∃ en, logChallenge st c p h t = st ++ [(c.challenge_id, en)] ∧
      en.profileId = p ∧ en.challenge_id = c.challenge_id ∧
      en.expiresAt = c.latest_submission ∧
      en.latest_submission = c.latest_submission := by
  simp only [logChallenge, hnone]
  exact ⟨_, rfl, rfl, rfl, rfl, rfl⟩

theorem logChallenge_some_shape (st : History) (c : ChallengeIn) (p : String)
    (h : Nat) (t : Int) (q : String × ChallengeHistoryEntry)
    (hfind : st.find? (fun x => x.1 == c.challenge_id) = some q) :
    ∃ e2, logChallenge st c p h t
        = st.map (fun x => if x.1 == c.challenge_id then (x.1, e2) else x) ∧
      e2.profileId = q.2.profileId ∧ e2.challenge_id = q.2.challenge_id ∧
      e2.expiresAt = q.2.expiresAt ∧
      e2.latest_submission = c.latest_submission := by
  simp only [logChallenge, hfind]
  refine ⟨_, rfl, ?_, ?_, ?_, ?_⟩ <;> (dsimp only; split <;> rfl)

end Challenges

/-- C3 counterexample: recording the same `challenge_id` under profile `"A"`
and then profile `"B"` leaves a single ledger entry (the map is keyed by
`challenge_id` alone), not two, and profile `"B"`'s `validChallenges` query
does not see any entry — refuting the claimed per-(profile, challengeId)
keying at this input. -/
theorem ledger_per_profile_counterexample :
    (Challenges.logChallenge
        (Challenges.logChallenge []
          { challenge_id := "c1", difficulty := "ff", no_pre_mine := "p",
            latest_submission := 1000000, no_pre_mine_hour := "0" } "A" 24 0)
        { challenge_id := "c1", difficulty := "ff", no_pre_mine := "p",
          latest_submission := 1000000, no_pre_mine_hour := "0" }
        "B" 24 1).length = 1 ∧
    Challenges.getValidChallenges
      (Challenges.logChallenge
        (Challenges.logChallenge []
          { challenge_id := "c1", difficulty := "ff", no_pre_mine := "p",
            latest_submission := 1000000, no_pre_mine_hour := "0" } "A" 24 0)
        { challenge_id := "c1", difficulty := "ff", no_pre_mine := "p",
          latest_submission := 1000000, no_pre_mine_hour := "0" }
        "B" 24 1) "B" 2 = [] := by
  constructor <;> rfl

/-- C3 amended: the Challenge Ledger keys entries by `challengeId` alone —
a second `record` call with the same `challengeId` under a different profile
updates the first profile's entry in place (length unchanged, `profileId`
kept), so the second profile's `validChallenges` never sees that challenge. -/
theorem ledger_upsert_by_challengeId (st : Challenges.History)
    (c : Challenges.ChallengeIn) (pA pB : String) (h1 h2 : Nat)
    (t1 t2 tq : Int)
    (hwf : ∀ q ∈ st, q.1 = q.2.challenge_id)
    (hnone : st.find? (fun q => q.1 == c.challenge_id) = none)
    (hne : pA ≠ pB) :
    (Challenges.logChallenge st c pA h1 t1).length = st.length + 1 ∧
    (Challenges.logChallenge (Challenges.logChallenge st c pA h1 t1) c pB h2
        t2).length = st.length + 1 ∧
    (∀ q ∈ Challenges.logChallenge (Challenges.logChallenge st c pA h1 t1) c
        pB h2 t2, q.1 = c.challenge_id → q.2.profileId = pA) ∧
    ∀ e ∈ Challenges.getValidChallenges
        (Challenges.logChallenge (Challenges.logChallenge st c pA h1 t1) c pB
          h2 t2) pB tq,
      e.challenge_id ≠ c.challenge_id := by
  obtain ⟨en, hs1, henp, henc, _, _⟩ :=
    Challenges.logChallenge_none_shape st c pA h1 t1 hnone
  have hfind : (Challenges.logChallenge st c pA h1 t1).find?
      (fun x => x.1 == c.challenge_id) = some (c.challenge_id, en) := by
    rw [hs1, List.find?_append, hnone]
    simp
  obtain ⟨e2, hs2, he2p, he2c, _, _⟩ :=
    Challenges.logChallenge_some_shape _ c pB h2 t2 _ hfind
  have hlen1 : (Challenges.logChallenge st c pA h1 t1).length
      = st.length + 1 := by
    rw [hs1, List.length_append, List.length_singleton]
  have hkey : ∀ q ∈ Challenges.logChallenge
      (Challenges.logChallenge st c pA h1 t1) c pB h2 t2,
      q.1 = c.challenge_id → q.2.profileId = pA := by
    intro q hq hqc
    rw [hs2] at hq
    obtain ⟨x, hx, rfl⟩ := List.mem_map.mp hq
    by_cases hxc : (x.1 == c.challenge_id)
    · rw [if_pos hxc]
      rw [he2p, henp]
    · rw [if_neg hxc] at hqc ⊢
      exact absurd (beq_iff_eq.mpr hqc) (by simpa using hxc)
  have hwf2 : ∀ q ∈ Challenges.logChallenge
      (Challenges.logChallenge st c pA h1 t1) c pB h2 t2,
      q.1 = q.2.challenge_id := by
    intro q hq
    rw [hs2] at hq
    obtain ⟨x, hx, rfl⟩ := List.mem_map.mp hq
    have hxwf : x.1 = x.2.challenge_id := by
      rw [hs1] at hx
      rcases List.mem_append.mp hx with hx | hx
      · exact hwf x hx
      · rw [List.mem_singleton.mp hx, henc]
    by_cases hxc : (x.1 == c.challenge_id)
    · rw [if_pos hxc]
      rw [he2c, henc]
      exact beq_iff_eq.mp hxc
    · rw [if_neg hxc]
      exact hxwf
  refine ⟨hlen1, ?_, hkey, ?_⟩
  · rw [hs2, List.length_map, hlen1]
  · intro e he hec
    unfold Challenges.getValidChallenges at he
    rw [mem_sortByLe] at he
    have hpe := List.of_mem_filter he
    simp only [Bool.and_eq_true, beq_iff_eq, decide_eq_true_eq] at hpe
    obtain ⟨q, hq, rfl⟩ := List.mem_map.mp (List.mem_of_mem_filter he)
    have hq1 : q.1 = c.challenge_id := by rw [hwf2 q hq, hec]
    have := hkey q hq hq1
    rw [hpe.1] at this
    exact hne this.symm

/-- Witness for C3's amended claim at a concrete two-call run. -/
theorem ledger_upsert_by_challengeId_witness :
    (Challenges.logChallenge []
      { challenge_id := "c1", difficulty := "ff", no_pre_mine := "p",
        latest_submission := 1000000, no_pre_mine_hour := "0" }
      "A" 24 0).length = ([] : Challenges.History).length + 1 ∧
    (Challenges.logChallenge
      (Challenges.logChallenge []
        { challenge_id := "c1", difficulty := "ff", no_pre_mine := "p",
          latest_submission := 1000000, no_pre_mine_hour := "0" } "A" 24 0)
      { challenge_id := "c1", difficulty := "ff", no_pre_mine := "p",
        latest_submission := 1000000, no_pre_mine_hour := "0" }
      "B" 24 1).length = ([] : Challenges.History).length + 1 ∧
    (∀ q ∈ Challenges.logChallenge
        (Challenges.logChallenge []
          { challenge_id := "c1", difficulty := "ff", no_pre_mine := "p",
            latest_submission := 1000000, no_pre_mine_hour := "0" } "A" 24 0)
        { challenge_id := "c1", difficulty := "ff", no_pre_mine := "p",
          latest_submission := 1000000, no_pre_mine_hour := "0" }
        "B" 24 1, q.1 = "c1" → q.2.profileId = "A") ∧
    ∀ e ∈ Challenges.getValidChallenges
        (Challenges.logChallenge
          (Challenges.logChallenge []
            { challenge_id := "c1", difficulty := "ff", no_pre_mine := "p",
              latest_submission := 1000000, no_pre_mine_hour := "0" }
            "A" 24 0)
          { challenge_id := "c1", difficulty := "ff", no_pre_mine := "p",
            latest_submission := 1000000, no_pre_mine_hour := "0" }
          "B" 24 1) "B" 2,
      e.challenge_id ≠ "c1" :=
  ledger_upsert_by_challengeId []
    { challenge_id := "c1", difficulty := "ff", no_pre_mine := "p",
      latest_submission := 1000000, no_pre_mine_hour := "0" }
    "A" "B" 24 24 0 1 2 (by intro q hq; exact absurd hq (List.not_mem_nil q))
    (by rfl) (by decide)

/-- C4: re-observation updates `latest_submission` but leaves the stored
`expiresAt` (the field `getValidChallenges` filters on) stale — at this
input the authority moves the deadline from 1000 to 2000, yet the entry
keeps `expiresAt = 1000` and the challenge is dropped from the valid set at
`now = 1500` although its authoritative deadline is still in the future. -/
theorem logChallenge_stale_expiresAt :
    ((Challenges.logChallenge
        (Challenges.logChallenge []
          { challenge_id := "c1", difficulty := "ff", no_pre_mine := "p",
            latest_submission := 1000, no_pre_mine_hour := "0" } "A" 24 0)
        { challenge_id := "c1", difficulty := "ff", no_pre_mine := "p",
          latest_submission := 2000, no_pre_mine_hour := "0" }
        "A" 24 10).map
      (fun q => (q.2.latest_submission, q.2.expiresAt))) = [(2000, 1000)] ∧
    Challenges.getValidChallenges
      (Challenges.logChallenge
        (Challenges.logChallenge []
          { challenge_id := "c1", difficulty := "ff", no_pre_mine := "p",
            latest_submission := 1000, no_pre_mine_hour := "0" } "A" 24 0)
        { challenge_id := "c1", difficulty := "ff", no_pre_mine := "p",
          latest_submission := 2000, no_pre_mine_hour := "0" }
        "A" 24 10) "A" 1500 = [] := by
  constructor <;> rfl

/-! ## Fee-Pool Rotator claims C5, C8 -/

/-- C5: fee-pool prefetch is all-or-nothing — a run fetching fewer than 10
addresses empties the stored pool, makes `hasValidPool()` false and makes
`nextAddress()` fail with the no-valid-pool error; a run fetching all 10
stores them and `nextAddress()` returns
`pool[totalFeeSolutionsSoFar mod 10]`. -/
theorem prefetch_all_or_nothing (cache : DevFee.DevFeeCache)
    (fetches : List (Option DevFee.DevFeeApiResponse)) (now : Int) :
    ((DevFee.fetchedAddresses fetches now).length < 10 →
      (DevFee.prefetchAddressPool cache fetches now).1.addressPool = [] ∧
      (DevFee.prefetchAddressPool cache fetches now).2 = false ∧
      DevFee.hasValidAddressPool
        (DevFee.prefetchAddressPool cache fetches now).1 = false ∧
      DevFee.getDevFeeAddress (DevFee.prefetchAddressPool cache fetches now).1
        = Except.error "No valid address pool available - dev fee disabled") ∧
    ((DevFee.fetchedAddresses fetches now).length = 10 →
      (DevFee.prefetchAddressPool cache fetches now).1.addressPool
        = DevFee.fetchedAddresses fetches now ∧
      (DevFee.prefetchAddressPool cache fetches now).2 = true ∧
      DevFee.hasValidAddressPool
        (DevFee.prefetchAddressPool cache fetches now).1 = true ∧
      ∀ a, (DevFee.fetchedAddresses fetches
            now)[cache.totalDevFeeSolutions % 10]? = some a →
        DevFee.getDevFeeAddress
          (DevFee.prefetchAddressPool cache fetches now).1
          = Except.ok a.address) := by
  constructor
  · intro hlt
    refine ⟨?_, ?_, ?_, ?_⟩ <;>
      simp [DevFee.prefetchAddressPool, DevFee.hasValidAddressPool,
        DevFee.getDevFeeAddress, hlt]
  · intro heq
    have hnlt : ¬ (DevFee.fetchedAddresses fetches now).length < 10 := by
      omega
    refine ⟨?_, ?_, ?_, ?_⟩
    · simp [DevFee.prefetchAddressPool, hnlt]
    · simp [DevFee.prefetchAddressPool, hnlt]
    · simp [DevFee.prefetchAddressPool, DevFee.hasValidAddressPool, hnlt, heq]
    · intro a ha
      simp [DevFee.prefetchAddressPool, hnlt, DevFee.getDevFeeAddress,
        DevFee.hasValidAddressPool, heq, ha]

/-- Witness for C5: a 7-of-10 run disables the pool; a 10-of-10 run serves
slot `3 mod 10`. -/
theorem prefetch_all_or_nothing_witness :
    ((DevFee.prefetchAddressPool
        { currentAddress := none, totalDevFeeSolutions := 3,
          lastFetchError := none, addressPool := [], poolFetchedAt := none }
        (List.replicate 7
            (some ({ devAddress := "addr1x", devAddressIndex := 0 } :
              DevFee.DevFeeApiResponse)) ++ List.replicate 3 none)
        0).1.addressPool = [] ∧
      (DevFee.prefetchAddressPool
        { currentAddress := none, totalDevFeeSolutions := 3,
          lastFetchError := none, addressPool := [], poolFetchedAt := none }
        (List.replicate 7
            (some ({ devAddress := "addr1x", devAddressIndex := 0 } :
              DevFee.DevFeeApiResponse)) ++ List.replicate 3 none)
        0).2 = false ∧
      DevFee.hasValidAddressPool
        (DevFee.prefetchAddressPool
          { currentAddress := none, totalDevFeeSolutions := 3,
            lastFetchError := none, addressPool := [], poolFetchedAt := none }
          (List.replicate 7
              (some ({ devAddress := "addr1x", devAddressIndex := 0 } :
                DevFee.DevFeeApiResponse)) ++ List.replicate 3 none)
          0).1 = false ∧
      DevFee.getDevFeeAddress
        (DevFee.prefetchAddressPool
          { currentAddress := none, totalDevFeeSolutions := 3,
            lastFetchError := none, addressPool := [], poolFetchedAt := none }
          (List.replicate 7
              (some ({ devAddress := "addr1x", devAddressIndex := 0 } :
                DevFee.DevFeeApiResponse)) ++ List.replicate 3 none)
          0).1
        = Except.error "No valid address pool available - dev fee disabled") ∧
    DevFee.getDevFeeAddress
      (DevFee.prefetchAddressPool
        { currentAddress := none, totalDevFeeSolutions := 3,
          lastFetchError := none, addressPool := [], poolFetchedAt := none }
        (List.replicate 10
          (some ({ devAddress := "addr1x", devAddressIndex := 0 } :
            DevFee.DevFeeApiResponse)))
        0).1 = Except.ok "addr1x" := by
  constructor
  · exact (prefetch_all_or_nothing _ _ 0).1 (by decide)
  · exact ((prefetch_all_or_nothing
      { currentAddress := none, totalDevFeeSolutions := 3,
        lastFetchError := none, addressPool := [], poolFetchedAt := none }
      (List.replicate 10
        (some ({ devAddress := "addr1x", devAddressIndex := 0 } :
          DevFee.DevFeeApiResponse)))
      0).2 (by decide)).2.2.2
      { address := "addr1x", addressIndex := 0, fetchedAt := 0,
        usedCount := 0 } (by decide)

/-- C8 counterexample: with a full pool (all use-counts 0), a `currentAddress`
of `null` and a solved-counter of 0, `nextAddress()` selects slot 0, but
`recordFeeSolution()` leaves every pool slot's use-count at 0 while bumping
the counter — the selected slot's use-count is not incremented. -/
theorem recordDevFeeSolution_pool_counterexample :
    DevFee.getDevFeeAddress
      { currentAddress := none, totalDevFeeSolutions := 0,
        lastFetchError := none,
        addressPool := List.replicate 10
          { address := "addr1x", addressIndex := 0, fetchedAt := 0,
            usedCount := 0 },
        poolFetchedAt := some 0 } = Except.ok "addr1x" ∧
    (DevFee.recordDevFeeSolution
      { currentAddress := none, totalDevFeeSolutions := 0,
        lastFetchError := none,
        addressPool := List.replicate 10
          { address := "addr1x", addressIndex := 0, fetchedAt := 0,
            usedCount := 0 },
        poolFetchedAt := some 0 }).totalDevFeeSolutions = 1 ∧
    ((DevFee.recordDevFeeSolution
      { currentAddress := none, totalDevFeeSolutions := 0,
        lastFetchError := none,
        addressPool := List.replicate 10
          { address := "addr1x", addressIndex := 0, fetchedAt := 0,
            usedCount := 0 },
        poolFetchedAt := some 0 }).addressPool.map
      (fun a => a.usedCount)) = List.replicate 10 0 := by
  refine ⟨rfl, rfl, rfl⟩

/-- C8 amended: `recordFeeSolution()` increments the global solved-counter
by exactly one and the returned (immediately persisted) cache bumps only the
legacy `currentAddress` use-count when one is set; every pool slot's
use-count — including the slot `nextAddress()` last selected — is
unchanged. -/
theorem recordDevFeeSolution_spec (cache : DevFee.DevFeeCache) :
    (DevFee.recordDevFeeSolution cache).totalDevFeeSolutions
      = cache.totalDevFeeSolutions + 1 ∧
    (DevFee.recordDevFeeSolution cache).addressPool = cache.addressPool ∧
    (DevFee.recordDevFeeSolution cache).currentAddress
      = cache.currentAddress.map
          (fun a => { a with usedCount := a.usedCount + 1 }) := by
  cases hca : cache.currentAddress <;>
    simp [DevFee.recordDevFeeSolution, hca]

/-! ## Retry Coordinator lemmas and claim C7 -/

theorem countP_filter_disjoint {α : Type} (p q : α → Bool)
    (h : ∀ x, p x = true → q x = true) (l : List α) :
    (l.filter q).countP p = l.countP p := by
  induction l with
  | nil => rfl
  | cons a t ih =>
      by_cases hq : q a
      · rw [List.filter_cons_of_pos hq]
        by_cases hp : p a
        · rw [List.countP_cons_of_pos p _ hp, List.countP_cons_of_pos p _ hp,
            ih]
        · rw [List.countP_cons_of_neg p _ hp, List.countP_cons_of_neg p _ hp,
            ih]
      · rw [List.filter_cons_of_neg hq]
        have hp : ¬ p a = true := fun hpa => hq (h a hpa)
        rw [List.countP_cons_of_neg p _ hp, ih]

namespace Retry

theorem retry_fold_countP (submit : ErrorEntry → Except String Unit)
    (now : Int) (p : ErrorEntry → Bool) (l : List ErrorEntry)
    (st : RetryOutcome)
    (hdisj : ∀ s ∈ l, ∀ u, submit s = Except.ok u → ∀ x, p x = true →
      keyMatches s x = false) :
    ((l.foldl (retryStep submit now) st).errors).countP p
      = st.errors.countP p := by
  induction l generalizing st with
  | nil => rfl
  | cons s t ih =>
      rw [List.foldl_cons]
      rw [ih _ (fun s' hs' => hdisj s' (List.mem_cons_of_mem s hs'))]
      cases hsub : submit s with
      | ok u =>
          simp only [retryStep, hsub]
          apply countP_filter_disjoint
          intro x hx
          have hkm := hdisj s (List.mem_cons_self s t) u hsub x hx
          simp only [keyMatches, Bool.and_eq_true] at hkm
          simp only [Bool.not_eq_true']
          exact hkm
      | error msg =>
          simp only [retryStep, hsub]

theorem retry_results_mono (submit : ErrorEntry → Except String Unit)
    (now : Int) (r : RetryResult) :
    ∀ (l : List ErrorEntry) (st : RetryOutcome), r ∈ st.results →
      r ∈ (l.foldl (retryStep submit now) st).results := by
  intro l
  induction l with
  | nil => intro st h; exact h
  | cons s t ih =>
      intro st h
      rw [List.foldl_cons]
      apply ih
      cases hsub : submit s <;>
        · simp only [retryStep, hsub]
          exact List.mem_append_left _ h

theorem dedup_fold_inv (successKeys : List String) (l : List ErrorEntry) :
    ∀ (m : List (String × ErrorEntry)), (m.map Prod.fst).Nodup →
      (∀ p ∈ m, p.1 = errorKey p.2) →
      ((l.foldl (dedupStep successKeys) m).map Prod.fst).Nodup ∧
      ∀ p ∈ l.foldl (dedupStep successKeys) m, p.1 = errorKey p.2 := by
  induction l with
  | nil => intro m h1 h2; exact ⟨h1, h2⟩
  | cons e t ih =>
      intro m h1 h2
      rw [List.foldl_cons]
      apply ih
      · unfold dedupStep
        by_cases hsk : successKeys.contains (errorKey e)
        · rw [if_pos hsk]; exact h1
        · rw [if_neg hsk]
          by_cases hany : m.any (fun p => p.1 == errorKey e)
          · rw [if_pos hany]
            have : (m.map
                (fun p => if p.1 == errorKey e && decide (p.2.ts < e.ts)
                  then (p.1, e) else p)).map Prod.fst = m.map Prod.fst := by
              rw [List.map_map]
              apply List.map_congr_left
              intro p _
              show (if p.1 == errorKey e && decide (p.2.ts < e.ts)
                then (p.1, e) else p).1 = p.1
              split <;> rfl
            rw [this]
            exact h1
          · rw [if_neg hany, List.map_append]
            rw [List.nodup_append]
            refine ⟨h1, List.nodup_singleton _, ?_⟩
            intro k hk hke
            rw [List.map_singleton, List.mem_singleton] at hke
            subst hke
            obtain ⟨p, hp, hpk⟩ := List.mem_map.mp hk
            apply hany
            rw [List.any_eq_true]
            exact ⟨p, hp, beq_iff_eq.mpr hpk⟩
      · unfold dedupStep
        by_cases hsk : successKeys.contains (errorKey e)
        · rw [if_pos hsk]; exact h2
        · rw [if_neg hsk]
          by_cases hany : m.any (fun p => p.1 == errorKey e)
          · rw [if_pos hany]
            intro p hp
            obtain ⟨q, hq, rfl⟩ := List.mem_map.mp hp
            by_cases hc : (q.1 == errorKey e && decide (q.2.ts < e.ts))
            · rw [if_pos hc]
              simp only [Bool.and_eq_true, beq_iff_eq] at hc
              exact hc.1
            · rw [if_neg hc]
              exact h2 q hq
          · rw [if_neg hany]
            intro p hp
            rcases List.mem_append.mp hp with hp | hp
            · exact h2 p hp
            · rw [List.mem_singleton.mp hp]

theorem selectRecent_key_nodup (receipts : List ReceiptEntry)
    (rawErrors : List ErrorEntry) (now : Int) :
    ((selectRecentErrors receipts rawErrors now).map errorKey).Nodup := by
  obtain ⟨h1, h2⟩ := dedup_fold_inv (receipts.map receiptKey) rawErrors []
    (by simp) (by simp)
  have hkeys : ((rawErrors.foldl (dedupStep (receipts.map receiptKey))
      []).map Prod.snd).map errorKey
      = (rawErrors.foldl (dedupStep (receipts.map receiptKey)) []).map
        Prod.fst := by
    rw [List.map_map]
    apply List.map_congr_left
    intro p hp
    exact (h2 p hp).symm
  have hnd : (((rawErrors.foldl (dedupStep (receipts.map receiptKey))
      []).map Prod.snd).map errorKey).Nodup := by
    rw [hkeys]; exact h1
  apply List.Nodup.sublist _ hnd
  apply List.Sublist.map
  exact List.filter_sublist _

end Retry

/-- C7 counterexample: a single in-window failure whose re-submission fails
again leaves the failure log exactly as it was — no new raw failure event is
appended for the retried key (its event count stays 1, not 2), refuting the
claim that the coordinator records the failed retry in the failure log. -/
theorem retry_failed_no_append_counterexample :
    (Retry.retryAll []
      [{ ts := 0, address := "a", addressIndex := some 1, challenge_id := "c",
         nonce := "n", hash := "h", errMsg := "x" }] 0
      (fun _ => Except.error "rejected")).errors
      = [{ ts := 0, address := "a", addressIndex := some 1,
           challenge_id := "c", nonce := "n", hash := "h", errMsg := "x" }] ∧
    (Retry.retryAll []
      [{ ts := 0, address := "a", addressIndex := some 1, challenge_id := "c",
         nonce := "n", hash := "h", errMsg := "x" }] 0
      (fun _ => Except.error "rejected")).failed = 1 ∧
    ¬ ((Retry.retryAll []
      [{ ts := 0, address := "a", addressIndex := some 1, challenge_id := "c",
         nonce := "n", hash := "h", errMsg := "x" }] 0
      (fun _ => Except.error "rejected")).errors.countP
        (Retry.keyMatches
          { ts := 0, address := "a", addressIndex := some 1,
            challenge_id := "c", nonce := "n", hash := "h", errMsg := "x" })
      = 2) := by
  refine ⟨rfl, rfl, by decide⟩

/-- C7 amended: when a retried submission fails again, the Retry Coordinator
records the outcome only in the returned per-attempt results — it appends no
new raw failure event and removes none, so the retried key's raw failure
events (and hence its collapsed `retryCount`) are exactly those previously
recorded. -/
theorem retry_failed_keeps_failures (receipts : List ReceiptEntry)
    (rawErrors : List ErrorEntry) (now : Int)
    (submit : ErrorEntry → Except String Unit) (e : ErrorEntry) (msg : String)
    (hsel : e ∈ Retry.selectRecentErrors receipts rawErrors now)
    (hfail : submit e = Except.error msg) :
    ((Retry.retryAll receipts rawErrors now submit).errors).countP
        (Retry.keyMatches e)
      = rawErrors.countP (Retry.keyMatches e) ∧
    { address := e.address, challengeId := e.challenge_id, nonce := e.nonce,
      success := false, errMsg := some msg } ∈
      (Retry.retryAll receipts rawErrors now submit).results := by
  constructor
  · apply Retry.retry_fold_countP
    intro s hs u hsub x hx
    have hne : s ≠ e := by
      intro h
      rw [h, hfail] at hsub
      exact Except.noConfusion hsub
    have hkey : errorKey s ≠ errorKey e := by
      intro h
      exact hne (List.inj_on_of_nodup_map
        (Retry.selectRecent_key_nodup receipts rawErrors now) hs hsel h)
    simp only [Retry.keyMatches, Bool.and_eq_true, beq_iff_eq] at hx
    rw [Bool.eq_false_iff]
    intro hxs
    simp only [Retry.keyMatches, Bool.and_eq_true, beq_iff_eq] at hxs
    apply hkey
    unfold errorKey
    rw [hxs.1.1.symm, hxs.1.2.symm, hxs.2.symm, hx.1.1, hx.1.2, hx.2]
  · obtain ⟨l1, l2, hsplit⟩ := List.append_of_mem hsel
    unfold Retry.retryAll
    rw [hsplit, List.foldl_append, List.foldl_cons]
    apply Retry.retry_results_mono
    have hstep : ∀ st : Retry.RetryOutcome,
        { address := e.address, challengeId := e.challenge_id,
          nonce := e.nonce, success := false,
          errMsg := some msg } ∈ (Retry.retryStep submit now st e).results := by
      intro st
      simp only [Retry.retryStep, hfail]
      exact List.mem_append_right _ (List.mem_singleton.mpr rfl)
    exact hstep _

/-- Witness for C7's amended claim at a one-failure log whose retry is
rejected again. -/
theorem retry_failed_keeps_failures_witness :
    ((Retry.retryAll []
      [{ ts := 0, address := "a", addressIndex := some 1, challenge_id := "c",
         nonce := "n", hash := "h", errMsg := "x" }] 0
      (fun _ => Except.error "rejected")).errors).countP
        (Retry.keyMatches
          { ts := 0, address := "a", addressIndex := some 1,
            challenge_id := "c", nonce := "n", hash := "h", errMsg := "x" })
      = [({ ts := 0, address := "a", addressIndex := some 1,
            challenge_id := "c", nonce := "n", hash := "h",
            errMsg := "x" } : ErrorEntry)].countP
          (Retry.keyMatches
            { ts := 0, address := "a", addressIndex := some 1,
              challenge_id := "c", nonce := "n", hash := "h",
              errMsg := "x" }) ∧
    { address := "a", challengeId := "c", nonce := "n", success := false,
      errMsg := some "rejected" } ∈
      (Retry.retryAll []
        [{ ts := 0, address := "a", addressIndex := some 1,
           challenge_id := "c", nonce := "n", hash := "h", errMsg := "x" }] 0
        (fun _ => Except.error "rejected")).results :=
  retry_failed_keeps_failures []
    [{ ts := 0, address := "a", addressIndex := some 1, challenge_id := "c",
       nonce := "n", hash := "h", errMsg := "x" }] 0
    (fun _ => Except.error "rejected")
    { ts := 0, address := "a", addressIndex := some 1, challenge_id := "c",
      nonce := "n", hash := "h", errMsg := "x" } "rejected"
    (by decide) rfl

/-! ## Statistics Aggregator lemmas and claim C9 -/

/-- Invariant propagation along a left fold, with list membership available
to the step hypothesis. -/
theorem foldl_inv_mem {σ α : Type} (step : σ → α → σ) (P : σ → Prop) :
    ∀ (l : List α) (s : σ), P s → (∀ s a, a ∈ l → P s → P (step s a)) →
      P (l.foldl step s) := by
  intro l
  induction l with
  | nil => intro s h _; exact h
  | cons a t ih =>
      intro s h hstep
      exact ih (step s a) (hstep s a (List.mem_cons_self a t) h)
        (fun s' a' ha' => hstep s' a' (List.mem_cons_of_mem a ha'))

namespace Stats

theorem bump_at_key_sum (day : Int) (g : GDay → GDay)
    (hg : ∀ x, (g x).receipts = x.receipts + 1) :
    ∀ (m : List (Int × GDay)), (m.map Prod.fst).Nodup →
      day ∈ m.map Prod.fst →
      ((m.map (fun p => if p.1 == day then (p.1, g p.2) else p)).map
          (fun p => p.2.receipts)).sum
        = (m.map (fun p => p.2.receipts)).sum + 1 := by
  intro m
  induction m with
  | nil => intro _ h; exact absurd h (List.not_mem_nil day)
  | cons p t ih =>
      intro hnd hday
      have hnd2 : (p.1 :: t.map Prod.fst).Nodup := by
        rw [List.map_cons] at hnd; exact hnd
      have h1 : p.1 ∉ t.map Prod.fst := (List.nodup_cons.mp hnd2).1
      have h2 : (t.map Prod.fst).Nodup := (List.nodup_cons.mp hnd2).2
      by_cases hp : (p.1 == day)
      · have hd : p.1 = day := beq_iff_eq.mp hp
        have hnotin : day ∉ t.map Prod.fst := by
          rw [← hd]; exact h1
        have ht : t.map (fun q => if q.1 == day then (q.1, g q.2) else q)
            = t := by
          have hcongr : ∀ q ∈ t, (if q.1 == day then (q.1, g q.2) else q)
              = id q := by
            intro q hq
            rw [if_neg]
            · rfl
            · intro hqd
              exact hnotin ((beq_iff_eq.mp hqd) ▸
                List.mem_map_of_mem Prod.fst hq)
          rw [List.map_congr_left hcongr, List.map_id]
        simp only [List.map_cons, if_pos hp, List.sum_cons, ht, hg]
        omega
      · have hday' : day ∈ t.map Prod.fst := by
          rcases List.mem_cons.mp hday with h | h
          · exact absurd (beq_iff_eq.mpr h.symm) hp
          · exact h
        simp only [List.map_cons, if_neg hp, List.sum_cons]
        rw [ih h2 hday']
        omega

theorem globalDayStep_keys (rates : List ℚ) (m : List (Int × GDay))
    (r : ReceiptEntry) (h : (m.map Prod.fst).Nodup) :
    ((globalDayStep rates m r).map Prod.fst).Nodup ∧
    dayFromSubmissionDate r.ts ∈ (globalDayStep rates m r).map Prod.fst ∧
    ((globalDayStep rates m r).map (fun p => p.2.receipts)).sum
      = (m.map (fun p => p.2.receipts)).sum + 1 := by
  simp only [globalDayStep]
  have hkeys : ∀ (m1 : List (Int × GDay)),
      (m1.map (fun p => if p.1 == dayFromSubmissionDate r.ts
        then (p.1, { addresses := addAddress p.2.addresses r.address,
                     receipts := p.2.receipts + 1,
                     dfo := p.2.dfo + rateOrZero rates
                       (dayFromSubmissionDate r.ts) }) else p)).map Prod.fst
      = m1.map Prod.fst := by
    intro m1
    rw [List.map_map]
    apply List.map_congr_left
    intro p _
    show (if p.1 == dayFromSubmissionDate r.ts then _ else p).1 = p.1
    split <;> rfl
  by_cases hany : m.any (fun p => p.1 == dayFromSubmissionDate r.ts)
  · rw [if_pos hany]
    have hmem : dayFromSubmissionDate r.ts ∈ m.map Prod.fst := by
      obtain ⟨p, hp, hpk⟩ := List.any_eq_true.mp hany
      exact (beq_iff_eq.mp hpk) ▸ List.mem_map_of_mem Prod.fst hp
    refine ⟨by rw [hkeys]; exact h, by rw [hkeys]; exact hmem, ?_⟩
    exact bump_at_key_sum (dayFromSubmissionDate r.ts)
      (fun x => { addresses := addAddress x.addresses r.address,
                  receipts := x.receipts + 1,
                  dfo := x.dfo + rateOrZero rates (dayFromSubmissionDate
                    r.ts) })
      (fun x => rfl) m h hmem
  · rw [if_neg hany]
    have hnotin : dayFromSubmissionDate r.ts ∉ m.map Prod.fst := by
      intro hmem
      obtain ⟨p, hp, hpk⟩ := List.mem_map.mp hmem
      apply hany
      rw [List.any_eq_true]
      exact ⟨p, hp, beq_iff_eq.mpr hpk⟩
    have hnd1 : ((m ++ [(dayFromSubmissionDate r.ts,
        ({ addresses := [], receipts := 0, dfo := 0 } : GDay))]).map
        Prod.fst).Nodup := by
      rw [List.map_append]
      rw [List.nodup_append]
      refine ⟨h, List.nodup_singleton _, ?_⟩
      intro k hk hke
      rw [List.map_singleton, List.mem_singleton] at hke
      subst hke
      exact hnotin hk
    have hmem1 : dayFromSubmissionDate r.ts ∈ (m ++ [(dayFromSubmissionDate
        r.ts, ({ addresses := [], receipts := 0, dfo := 0 } : GDay))]).map
        Prod.fst := by
      rw [List.map_append]
      exact List.mem_append_right _ (by simp)
    refine ⟨by rw [hkeys]; exact hnd1, by rw [hkeys]; exact hmem1, ?_⟩
    have hb := bump_at_key_sum (dayFromSubmissionDate r.ts)
      (fun x => { addresses := addAddress x.addresses r.address,
                  receipts := x.receipts + 1,
                  dfo := x.dfo + rateOrZero rates (dayFromSubmissionDate
                    r.ts) })
      (fun x => rfl) _ hnd1 hmem1
    refine Eq.trans hb ?_
    rw [List.map_append, List.sum_append]
    simp

theorem globalDayStep_dfo (rates : List ℚ) (m : List (Int × GDay))
    (r : ReceiptEntry)
    (h : ∀ p ∈ m, p.2.dfo = p.2.receipts * rateOrZero rates p.1) :
    ∀ p ∈ globalDayStep rates m r,
      p.2.dfo = p.2.receipts * rateOrZero rates p.1 := by
  intro p hp
  simp only [globalDayStep] at hp
  obtain ⟨q, hq, rfl⟩ := List.mem_map.mp hp
  have hq' : q ∈ m ∨ q = (dayFromSubmissionDate r.ts,
      ({ addresses := [], receipts := 0, dfo := 0 } : GDay)) := by
    by_cases hany : m.any (fun p => p.1 == dayFromSubmissionDate r.ts)
    · rw [if_pos hany] at hq; exact Or.inl hq
    · rw [if_neg hany] at hq
      rcases List.mem_append.mp hq with h' | h'
      · exact Or.inl h'
      · exact Or.inr (List.mem_singleton.mp h')
  by_cases hc : (q.1 == dayFromSubmissionDate r.ts)
  · rw [if_pos hc]
    have hqd : q.1 = dayFromSubmissionDate r.ts := beq_iff_eq.mp hc
    dsimp only
    rcases hq' with hqm | rfl
    · rw [h q hqm, hqd]
      push_cast
      ring
    · dsimp only
      push_cast
      ring
  · rw [if_neg hc]
    rcases hq' with hqm | rfl
    · exact h q hqm
    · exact absurd (beq_iff_eq.mpr rfl) hc

theorem globalDayStep_days (rates : List ℚ) (receipts : List ReceiptEntry)
    (m : List (Int × GDay)) (r : ReceiptEntry) (hr : r ∈ receipts)
    (h : ∀ p ∈ m, ∃ x ∈ receipts, p.1 = dayFromSubmissionDate x.ts) :
    ∀ p ∈ globalDayStep rates m r,
      ∃ x ∈ receipts, p.1 = dayFromSubmissionDate x.ts := by
  intro p hp
  simp only [globalDayStep] at hp
  obtain ⟨q, hq, rfl⟩ := List.mem_map.mp hp
  have hq' : q ∈ m ∨ q = (dayFromSubmissionDate r.ts,
      ({ addresses := [], receipts := 0, dfo := 0 } : GDay)) := by
    by_cases hany : m.any (fun p => p.1 == dayFromSubmissionDate r.ts)
    · rw [if_pos hany] at hq; exact Or.inl hq
    · rw [if_neg hany] at hq
      rcases List.mem_append.mp hq with h' | h'
      · exact Or.inl h'
      · exact Or.inr (List.mem_singleton.mp h')
  have hfst : (if q.1 == dayFromSubmissionDate r.ts then
      (q.1, { addresses := addAddress q.2.addresses r.address,
              receipts := q.2.receipts + 1,
              dfo := q.2.dfo + rateOrZero rates (dayFromSubmissionDate r.ts) })
      else q).1 = q.1 := by
    split <;> rfl
  rw [hfst]
  rcases hq' with hqm | rfl
  · exact h q hqm
  · exact ⟨r, hr, rfl⟩

theorem computeStatsDays_ignores_challenge_id (receipts : List ReceiptEntry)
    (rates : List ℚ) (f : ReceiptEntry → String) :
    computeStatsDays (receipts.map (fun r => { r with challenge_id := f r }))
        rates
      = computeStatsDays receipts rates := by
  unfold computeStatsDays
  have hfold : ∀ (l : List ReceiptEntry) (m : List (Int × GDay)),
      (l.map (fun r => { r with challenge_id := f r })).foldl
        (globalDayStep rates) m = l.foldl (globalDayStep rates) m := by
    intro l
    induction l with
    | nil => intro m; rfl
    | cons r t ih =>
        intro m
        rw [List.map_cons, List.foldl_cons, List.foldl_cons]
        rw [show globalDayStep rates m { r with challenge_id := f r }
          = globalDayStep rates m r from rfl]
        exact ih _
  rw [hfold]

end Stats

/-- C9: the Statistics Aggregator buckets each receipt by its submission
timestamp — per-day receipt counts sum to the total receipt count, each
day's reward equals `count_d * rate[day-1]` (`0` when no rate is
published), and replacing every receipt's `challenge_id` (the day encoded
there) changes nothing. -/
theorem computeStats_day_buckets (receipts : List ReceiptEntry)
    (rates : List ℚ) :
    ((Stats.computeStatsDays receipts rates).map
        (fun d => d.receipts)).sum = receipts.length ∧
    (∀ d ∈ Stats.computeStatsDays receipts rates,
      d.dfo = d.receipts * Stats.rateOrZero rates d.day ∧
      ∃ r ∈ receipts, d.day = Stats.dayFromSubmissionDate r.ts) ∧
    ∀ f : ReceiptEntry → String,
      Stats.computeStatsDays
        (receipts.map (fun r => { r with challenge_id := f r })) rates
      = Stats.computeStatsDays receipts rates := by
  have hfold : ∀ (l : List ReceiptEntry) (m : List (Int × Stats.GDay)),
      (m.map Prod.fst).Nodup →
      ((l.foldl (Stats.globalDayStep rates) m).map Prod.fst).Nodup ∧
      ((l.foldl (Stats.globalDayStep rates) m).map
          (fun p => p.2.receipts)).sum
        = (m.map (fun p => p.2.receipts)).sum + l.length := by
    intro l
    induction l with
    | nil => intro m h; exact ⟨h, rfl⟩
    | cons r t ih =>
        intro m h
        rw [List.foldl_cons]
        obtain ⟨hnd, _, hsum⟩ := Stats.globalDayStep_keys rates m r h
        obtain ⟨hnd', hsum'⟩ := ih _ hnd
        refine ⟨hnd', ?_⟩
        rw [hsum', hsum, List.length_cons]
        omega
  refine ⟨?_, ?_, Stats.computeStatsDays_ignores_challenge_id receipts rates⟩
  · unfold Stats.computeStatsDays
    have hperm := (sortByLe_perm Stats.dayDesc
      ((receipts.foldl (Stats.globalDayStep rates) []).map (fun p =>
        ({ day := p.1, receipts := p.2.receipts,
           addresses := p.2.addresses.length,
           dfo := p.2.dfo } : Stats.DayStats)))).map
      (fun d : Stats.DayStats => d.receipts)
    rw [hperm.sum_eq, List.map_map]
    have := (hfold receipts [] (by simp)).2
    simpa using this
  · intro d hd
    unfold Stats.computeStatsDays at hd
    rw [mem_sortByLe] at hd
    obtain ⟨p, hp, rfl⟩ := List.mem_map.mp hd
    constructor
    · have hdfo : ∀ q ∈ receipts.foldl (Stats.globalDayStep rates) [],
          q.2.dfo = q.2.receipts * Stats.rateOrZero rates q.1 :=
        foldl_inv (Stats.globalDayStep rates)
          (fun m => ∀ q ∈ m,
            q.2.dfo = q.2.receipts * Stats.rateOrZero rates q.1)
          receipts [] (by simp)
          (fun m r hm => Stats.globalDayStep_dfo rates m r hm)
      exact hdfo p hp
    · have hdays : ∀ q ∈ receipts.foldl (Stats.globalDayStep rates) [],
          ∃ x ∈ receipts, q.1 = Stats.dayFromSubmissionDate x.ts :=
        foldl_inv_mem (Stats.globalDayStep rates)
          (fun m => ∀ q ∈ m,
            ∃ x ∈ receipts, q.1 = Stats.dayFromSubmissionDate x.ts)
          receipts [] (by simp)
          (fun m r hr hm => Stats.globalDayStep_days rates receipts m r hr hm)
      exact hdays p hp

/-- Witness for C9: three receipts spanning two submission days with rates
`[2, 3]` — their per-day counts sum to the total count, and re-labelling
every receipt's `challenge_id` changes nothing. -/
theorem computeStats_day_buckets_witness :
    ((Stats.computeStatsDays
        [{ ts := 1763596800000, address := "a", addressIndex := some 0,
           challenge_id := "**D01C01", nonce := "n1", hash := "h",
           crypto_receipt := none, isDevFee := false },
         { ts := 1763683200000, address := "a", addressIndex := some 0,
           challenge_id := "**D01C02", nonce := "n2", hash := "h",
           crypto_receipt := none, isDevFee := false },
         { ts := 1763683200000, address := "a", addressIndex := some 0,
           challenge_id := "**D01C03", nonce := "n3", hash := "h",
           crypto_receipt := none, isDevFee := false }] [2, 3]).map
        (fun d => d.receipts)).sum
      = ([{ ts := 1763596800000, address := "a", addressIndex := some 0,
            challenge_id := "**D01C01", nonce := "n1", hash := "h",
            crypto_receipt := none, isDevFee := false },
          { ts := 1763683200000, address := "a", addressIndex := some 0,
            challenge_id := "**D01C02", nonce := "n2", hash := "h",
            crypto_receipt := none, isDevFee := false },
          { ts := 1763683200000, address := "a", addressIndex := some 0,
            challenge_id := "**D01C03", nonce := "n3", hash := "h",
            crypto_receipt := none, isDevFee := false }] :
          List ReceiptEntry).length ∧
    Stats.computeStatsDays
        (([{ ts := 1763596800000, address := "a", addressIndex := some 0,
             challenge_id := "**D01C01", nonce := "n1", hash := "h",
             crypto_receipt := none, isDevFee := false },
           { ts := 1763683200000, address := "a", addressIndex := some 0,
             challenge_id := "**D01C02", nonce := "n2", hash := "h",
             crypto_receipt := none, isDevFee := false },
           { ts := 1763683200000, address := "a", addressIndex := some 0,
             challenge_id := "**D01C03", nonce := "n3", hash := "h",
             crypto_receipt := none, isDevFee := false }] :
          List ReceiptEntry).map
          (fun r => { r with challenge_id := "relabelled" })) [2, 3]
      = Stats.computeStatsDays
        [{ ts := 1763596800000, address := "a", addressIndex := some 0,
           challenge_id := "**D01C01", nonce := "n1", hash := "h",
           crypto_receipt := none, isDevFee := false },
         { ts := 1763683200000, address := "a", addressIndex := some 0,
           challenge_id := "**D01C02", nonce := "n2", hash := "h",
           crypto_receipt := none, isDevFee := false },
         { ts := 1763683200000, address := "a", addressIndex := some 0,
           challenge_id := "**D01C03", nonce := "n3", hash := "h",
           crypto_receipt := none, isDevFee := false }] [2, 3] :=
  ⟨(computeStats_day_buckets _ [2, 3]).1,
   (computeStats_day_buckets _ [2, 3]).2.2 (fun _ => "relabelled")⟩

/-- Witness for C6 at `workerId` 0 and 1 with zeroed random bytes. -/
theorem generateNonce_partition_witness :
    Nonce.generateNonce 0 [0, 0, 0, 0, 0, 0, 0]
        = Except.ok (Nonce.nonceOf 0 [0, 0, 0, 0, 0, 0, 0]) ∧
    (Nonce.nonceOf 0 [0, 0, 0, 0, 0, 0, 0]).length = 16 ∧
    (Nonce.nonceOf 0 [0, 0, 0, 0, 0, 0, 0]).data.all Nonce.isHexChar = true ∧
    (Nonce.nonceOf 0 [0, 0, 0, 0, 0, 0, 0]).data.take 2
        = Nonce.byteToHexChars 0 ∧
    Nonce.nonceOf 0 [0, 0, 0, 0, 0, 0, 0] ≠ Nonce.nonceOf 1 [0, 0, 0, 0, 0, 0, 0] :=
  generateNonce_partition 0 1 [0, 0, 0, 0, 0, 0, 0] [0, 0, 0, 0, 0, 0, 0]
    (by decide) (by decide) (by decide) (by decide) (by decide) (by decide)

end FetcherBot
